import Mathlib

/-!
Verification development for the planmode package manager core
(version resolver, lockfile store, import ledger, installer, doctor).

Each TypeScript function of the core is shallowly embedded as an
executable Lean definition.  External collaborators (network fetches,
YAML parsing, the Handlebars renderer, the SHA-256 digest, filesystem
write failures) are modelled as explicit parameters, following the
component boundaries the code itself draws (`registry.ts`, `yaml`,
`template.ts`, `crypto`, `node:fs`).  JS strings are Lean `String`s;
string scans are carried out on `String.data` character lists.
-/

deriving instance DecidableEq for Except

/-! ## Character-list primitives for JS string operations -/

/-- Boolean prefix test, used for JS `startsWith` and regex anchors. -/
def isPrefixOfB (p l : List Char) : Bool :=
  decide (p <+: l)

/-- Boolean suffix test, used for JS `endsWith` and regex `$` anchors. -/
def isSuffixOfB (p l : List Char) : Bool :=
  decide (p <:+ l)

/-- Boolean substring test: JS `String.prototype.includes`. -/
def includesStr (s sub : String) : Bool :=
  decide (sub.data <:+: s.data)

/-! ## Version resolver (cli/src/lib/resolver.ts) -/

/-- Parsed semantic version triple (the result of `parseSemver`). -/
structure Semver where
  major : Nat
  minor : Nat
  patch : Nat
deriving DecidableEq, Repr

/-- The `operator` discriminant of a parsed version range. -/
inductive RangeOp
  | exact
  | caret
  | tilde
  | gte
  | any
deriving DecidableEq, Repr

/-- Embeds the `VersionRange` interface of `resolver.ts`. -/
structure VersionRange where
  operator : RangeOp
  major : Nat
  minor : Nat
  patch : Nat
deriving DecidableEq, Repr

/-- JS `Number(component)` for a version component, restricted to the
plain digit runs of the version grammar; any other input (which the
source turns into `NaN`, or into `0` for an empty component) is mapped
to `none` and excluded by hypothesis in every theorem. -/
def natFromDigits? (l : List Char) : Option Nat :=
  if l ≠ [] ∧ l.all Char.isDigit then
    some (l.foldl (fun acc c => 10 * acc + (c.toNat - '0'.toNat)) 0)
  else none

/-- Embeds `parseSemver` on a character list:
`version.split(".").map(Number)` and the three leading components.
The source produces `NaN` components on malformed input; that
degenerate path is modelled as `none` (see `satisfiesStr` for how
`NaN` comparisons are accounted for). -/
def parseSemverL? (l : List Char) : Option Semver :=
  match (List.splitOn '.' l).map natFromDigits? with
  | [some a, some b, some c] => some ⟨a, b, c⟩
  | _ => none

/-- `parseSemver` on a version string. -/
def parseSemver? (s : String) : Option Semver :=
  parseSemverL? s.data

/-- Total variant of `parseSemver?` used by `compareVersions`; the
default only matters for inputs outside the version grammar, which all
theorems exclude by hypothesis. -/
def parseSemverD (s : String) : Semver :=
  (parseSemver? s).getD ⟨0, 0, 0⟩

/-- Embeds `parseVersionRange`.  `none` models a range whose numeric
part fails `parseSemver` (a `NaN` range, which no version satisfies in
the source — see `resolveVersionPure`). -/
def parseVersionRange? (range : String) : Option VersionRange :=
  if range = "*" then
    some ⟨RangeOp.any, 0, 0, 0⟩
  else if isPrefixOfB ['^'] range.data then
    (parseSemverL? (range.data.drop 1)).map (fun v => ⟨RangeOp.caret, v.major, v.minor, v.patch⟩)
  else if isPrefixOfB ['~'] range.data then
    (parseSemverL? (range.data.drop 1)).map (fun v => ⟨RangeOp.tilde, v.major, v.minor, v.patch⟩)
  else if isPrefixOfB ['>', '='] range.data then
    (parseSemverL? (range.data.drop 2)).map (fun v => ⟨RangeOp.gte, v.major, v.minor, v.patch⟩)
  else
    (parseSemverL? range.data).map (fun v => ⟨RangeOp.exact, v.major, v.minor, v.patch⟩)

/-- Embeds the `switch` body of `satisfies` on an already-parsed
version triple. -/
def satisfiesSem (v : Semver) (range : VersionRange) : Bool :=
  match range.operator with
  | RangeOp.any => true
  | RangeOp.exact =>
      v.major == range.major && v.minor == range.minor && v.patch == range.patch
  | RangeOp.caret =>
      if v.major ≠ range.major then false
      else if v.minor > range.minor then true
      else if v.minor == range.minor then v.patch ≥ range.patch
      else false
  | RangeOp.tilde =>
      if v.major ≠ range.major then false
      else if v.minor ≠ range.minor then false
      else v.patch ≥ range.patch
  | RangeOp.gte =>
      if v.major > range.major then true
      else if v.major < range.major then false
      else if v.minor > range.minor then true
      else if v.minor < range.minor then false
      else v.patch ≥ range.patch

/-- Embeds `satisfies` on a version string.  When `parseSemver` yields
`NaN` components, every comparison in the source is false, so every
arm except `any` rejects; the `none` branch reproduces exactly that. -/
def satisfiesStr (version : String) (range : VersionRange) : Bool :=
  match parseSemver? version with
  | some v => satisfiesSem v range
  | none => range.operator == RangeOp.any

/-- Embeds `compareVersions` (the JS sort comparator): subtraction on
the first differing component, as an integer. -/
def compareVersions (a b : String) : Int :=
  let va := parseSemverD a
  let vb := parseSemverD b
  if va.major ≠ vb.major then (va.major : Int) - vb.major
  else if va.minor ≠ vb.minor then (va.minor : Int) - vb.minor
  else (va.patch : Int) - vb.patch

/-- The ordering induced by the comparator, as used by
`Array.prototype.sort`: `a` sorts no later than `b`. -/
def verLe (a b : String) : Prop :=
  compareVersions a b ≤ 0

instance : DecidableRel verLe :=
  fun a b => inferInstanceAs (Decidable (compareVersions a b ≤ 0))

/-- Embeds `parseDepString`: split `"name@constraint"` on the last `@`
(index must be positive so scoped names are not misparsed); an absent
constraint yields `"*"`. -/
def parseDepString (dep : String) : String × String :=
  let chars := dep.data
  let revIdx := chars.reverse.indexOf '@'
  if revIdx < chars.length then
    let atIndex := chars.length - 1 - revIdx
    if atIndex > 0 then
      (⟨chars.take atIndex⟩, ⟨chars.drop (atIndex + 1)⟩)
    else (dep, "*")
  else (dep, "*")

/-- Registry metadata fields consumed by the embedded core
(`PackageMetadata` of `types/index.ts`; presentation-only fields are
omitted as unused by the resolver and installer). -/
structure PackageMetadata where
  name : String
  latest_version : String
  versions : List String
deriving DecidableEq, Repr

/-- Typed failures of `resolveVersion` (the thrown `Error`s). -/
inductive ResolveError
  | packageNotFound (name : String)
  | versionNotFound (range : String) (name : String) (available : List String)
deriving DecidableEq, Repr

/-- Renders the thrown message of the version-not-found branch,
enumerating all candidates as `metadata.versions.join(", ")` does. -/
def resolveErrorMessage : ResolveError → String
  | ResolveError.packageNotFound name =>
      "Package '" ++ name ++ "' not found in registry. Run `planmode search <query>` to find packages."
  | ResolveError.versionNotFound range name available =>
      "Version '" ++ range ++ "' not found for '" ++ name ++ "'. Available: " ++
        String.intercalate ", " available

/-- Embeds `resolveVersion` after the metadata fetch: absent range or
`"latest"` returns `metadata.latest_version`; otherwise filter by
`satisfies`, sort with `compareVersions` (`Array.prototype.sort` is a
stable comparator sort; every stable sort computes the same list, so
the stable insertion sort stands in for it), and take the last element,
throwing a version-not-found error when nothing matches.  A range whose
numeric part fails to parse matches nothing in the source (`NaN`
comparisons), hence falls into the same not-found branch. -/
def resolveVersionPure (packageName : String) (metadata : PackageMetadata)
    (versionRange : Option String) : Except ResolveError String :=
  match versionRange with
  | none => Except.ok metadata.latest_version
  | some r =>
    if r == "latest" then Except.ok metadata.latest_version
    else
      match parseVersionRange? r with
      | none => Except.error (ResolveError.versionNotFound r packageName metadata.versions)
      | some range =>
        let matching := (metadata.versions.filter (fun v => satisfiesStr v range)).insertionSort verLe
        match matching.getLast? with
        | none => Except.error (ResolveError.versionNotFound r packageName metadata.versions)
        | some v => Except.ok v

/-- Embeds `findHighestSatisfying`. -/
def findHighestSatisfying (versions : List String) (ranges : List String) : Option String :=
  let parsedRanges := ranges.map parseVersionRange?
  let matching := (versions.filter (fun v =>
    parsedRanges.all (fun r =>
      match r with
      | some range => satisfiesStr v range
      | none => false))).insertionSort verLe
  matching.getLast?

/-! ## Lockfile store (cli/src/lib/lockfile.ts) -/

/-- The closed three-variant package type union. -/
inductive PackageType
  | plan
  | rule
  | prompt
deriving DecidableEq, Repr

/-- Embeds the `LockfileEntry` interface. -/
structure LockfileEntry where
  version : String
  type : PackageType
  source : String
  tag : String
  sha : String
  content_hash : String
  installed_to : String
deriving DecidableEq, Repr

/-- Embeds the `Lockfile` interface; the `packages` record is an
association list with unique keys (JS object keys). -/
structure Lockfile where
  lockfile_version : Nat
  packages : List (String × LockfileEntry)
deriving DecidableEq, Repr

/-- The empty, valid lockfile value `{ lockfile_version: 1, packages: {} }`. -/
def emptyLockfile : Lockfile :=
  { lockfile_version := 1, packages := [] }

/-- Embeds `readLockfile`.  `raw` is the result of `readFileSync`
(`none` = the file is absent and the read threw).  `parseYaml` is the
external YAML parser: outer `none` = the parser threw, inner `none` =
it returned `null`/`undefined` (the `data ?? {...}` fallback). -/
def readLockfile (parseYaml : String → Option (Option Lockfile)) (raw : Option String) : Lockfile :=
  match raw with
  | none => emptyLockfile
  | some s =>
    match parseYaml s with
    | none => emptyLockfile
    | some none => emptyLockfile
    | some (some lf) => lf

/-- Record update `record[key] = value`: overwrite in place when the
key exists, else append (JS property-order semantics). -/
def setAssoc (key : String) (value : α) : List (String × α) → List (String × α)
  | [] => [(key, value)]
  | (k, v) :: rest =>
      if k = key then (k, value) :: rest else (k, v) :: setAssoc key value rest

/-- Embeds `delete lockfile.packages[packageName]`. -/
def removeAssoc (key : String) (l : List (String × α)) : List (String × α) :=
  l.filter (fun p => p.1 ≠ key)

/-! ## Import ledger (cli/src/lib/claude-md.ts)

The host document is `CLAUDE.md`; an absent document is `none`.  The
string scans below operate on `String.data` character lists. -/

/-- JS whitespace class (`\s`, `trim`), restricted to the ASCII
whitespace the documents at hand can contain. -/
def isJsWhitespace (c : Char) : Bool :=
  c = ' ' || c = '\t' || c = '\r' || c = '\n'

/-- JS `String.prototype.trim`: strip leading and trailing whitespace. -/
def jsTrim (s : String) : String :=
  ⟨((s.data.dropWhile isJsWhitespace).reverse.dropWhile isJsWhitespace).reverse⟩

/-- JS `content.split("\n")`. -/
def splitLines (s : String) : List String :=
  (List.splitOn '\n' s.data).map (fun l => (⟨l⟩ : String))

/-- JS `lines.join("\n")`. -/
def joinLines (ls : List String) : String :=
  ⟨List.intercalate ['\n'] (ls.map String.data)⟩

/-- JS `String.prototype.replace` with a string pattern: replace the
first occurrence only.  (The source only calls this with the non-empty
pattern `"# Planmode"`, so the empty-list base case is unreachable.) -/
def replaceFirstL (pat repl : List Char) : List Char → List Char
  | [] => []
  | c :: rest =>
      if isPrefixOfB pat (c :: rest) then repl ++ (c :: rest).drop pat.length
      else c :: replaceFirstL pat repl rest

/-- `content.replace(pat, repl)` on strings. -/
def replaceFirst (content pat repl : String) : String :=
  ⟨replaceFirstL pat.data repl.data content.data⟩

/-- The managed-section header `PLANMODE_SECTION`. -/
def planmodeSection : String := "# Planmode"

/-- The reference line written for a plan: `- @plans/<name>.md`. -/
def importLineFor (planName : String) : String :=
  "- @plans/" ++ planName ++ ".md"

/-- Embeds `addImport` as a pure document transformation: the content
written back to `CLAUDE.md` given the current document (or `none` when
the document does not exist). -/
def addImportDoc (planName : String) (doc : Option String) : String :=
  let importLine := importLineFor planName
  match doc with
  | none => planmodeSection ++ "\n" ++ importLine ++ "\n"
  | some content =>
    if includesStr content importLine then content
    else if includesStr content planmodeSection then
      replaceFirst content planmodeSection (planmodeSection ++ "\n" ++ importLine)
    else
      let separator := if isSuffixOfB ['\n'] content.data then "\n" else "\n\n"
      content ++ separator ++ planmodeSection ++ "\n" ++ importLine ++ "\n"

/-- Embeds `removeImport` on an existing document: keep every line
whose trimmed form differs from the reference line. -/
def removeImportDoc (planName : String) (content : String) : String :=
  joinLines ((splitLines content).filter (fun line => jsTrim line ≠ importLineFor planName))

/-- Embeds `removeImport` including the `existsSync` guard: a missing
document stays missing (early return, no write). -/
def removeImportOpt (planName : String) (doc : Option String) : Option String :=
  match doc with
  | none => none
  | some content => some (removeImportDoc planName content)

/-- One step of the `importRegex` scan: does this line match
`^-\s*@plans\/(.+)\.md$`, and if so what does the greedy group
capture? -/
def parseImportLine (line : String) : Option String :=
  match line.data with
  | [] => none
  | c :: rest =>
    if c = '-' then
      let rest := rest.dropWhile isJsWhitespace
      if isPrefixOfB "@plans/".data rest then
        let stem := rest.drop "@plans/".data.length
        if isSuffixOfB ".md".data stem && decide (3 < stem.length) then
          some ⟨stem.take (stem.length - 3)⟩
        else none
      else none
    else none

/-- Embeds `listImports` on a document: all regex matches in order
(the `m` flag makes `^`/`$` line anchors, so the scan is per line). -/
def listImportsDoc (content : String) : List String :=
  (splitLines content).filterMap parseImportLine

/-- Embeds `listImports` including the `existsSync` guard. -/
def listImports (doc : Option String) : List String :=
  match doc with
  | none => []
  | some content => listImportsDoc content

/-! ## Project state

The persisted world an operation sees: content files (and the ledger
host `CLAUDE.md`) as a path-keyed association list, plus the lockfile
store.  Paths are project-root-relative (the ambient `projectDir`
prefix of `path.join(projectDir, ...)` is dropped uniformly). -/

/-- Filesystem plus lockfile store. -/
structure ProjectState where
  files : List (String × String)
  lockfile : Lockfile
deriving DecidableEq, Repr

/-- `fs.readFileSync(path, "utf-8")`, as an optional lookup. -/
def readFileFS (s : ProjectState) (p : String) : Option String :=
  s.files.lookup p

/-- `fs.existsSync(path)` for a file path. -/
def fileExists (s : ProjectState) (p : String) : Bool :=
  (readFileFS s p).isSome

/-- `fs.writeFileSync(path, content)`. -/
def writeFileFS (s : ProjectState) (p content : String) : ProjectState :=
  { s with files := setAssoc p content s.files }

/-- `fs.unlinkSync(path)`. -/
def removeFileFS (s : ProjectState) (p : String) : ProjectState :=
  { s with files := removeAssoc p s.files }

/-- `getLockedVersion(packageName, projectDir)`. -/
def getLockedVersionS (packageName : String) (s : ProjectState) : Option LockfileEntry :=
  s.lockfile.packages.lookup packageName

/-- `addToLockfile(packageName, entry, projectDir)`. -/
def addToLockfileS (packageName : String) (entry : LockfileEntry) (s : ProjectState) : ProjectState :=
  { s with lockfile := { s.lockfile with packages := setAssoc packageName entry s.lockfile.packages } }

/-- `removeFromLockfile(packageName, projectDir)`. -/
def removeFromLockfileS (packageName : String) (s : ProjectState) : ProjectState :=
  { s with lockfile := { s.lockfile with packages := removeAssoc packageName s.lockfile.packages } }

/-- The host document of the import ledger. -/
def claudeMdName : String := "CLAUDE.md"

/-- `addImport(planName, projectDir)` as a state transformation. -/
def addImportS (planName : String) (s : ProjectState) : ProjectState :=
  writeFileFS s claudeMdName (addImportDoc planName (readFileFS s claudeMdName))

/-- `removeImport(planName, projectDir)` as a state transformation
(no-op when `CLAUDE.md` does not exist). -/
def removeImportS (planName : String) (s : ProjectState) : ProjectState :=
  match readFileFS s claudeMdName with
  | none => s
  | some content => writeFileFS s claudeMdName (removeImportDoc planName content)

/-! ## Consistency checker (cli/src/lib/registry.ts, runDoctor)

Issue messages are identified structurally by `DiagKind`, carrying the
data interpolated into the template; `messageOf`/`fixOf` render the
exact strings of the source. -/

/-- Issue severity. -/
inductive Severity
  | error
  | warning
deriving DecidableEq, Repr

/-- Which diagnostic was pushed, with its interpolated data. -/
inductive DiagKind
  | missingFile (name installedTo : String)
  | hashMismatch (name installedTo : String)
  | planMissingImport (name : String)
  | danglingImport (name : String)
  | untrackedImport (name : String)
  | claudeMdMissing
  | untrackedPlanFile (file : String)
deriving DecidableEq, Repr

/-- Embeds `DiagnosticIssue` (the `message`/`fix` strings are recovered
by `messageOf`/`fixOf`). -/
structure DiagnosticIssue where
  severity : Severity
  kind : DiagKind
deriving DecidableEq, Repr

/-- The `message` template of each issue. -/
def messageOf : DiagKind → String
  | DiagKind.missingFile name installedTo =>
      "Missing file for \"" ++ name ++ "\": " ++ installedTo
  | DiagKind.hashMismatch name installedTo =>
      "Content hash mismatch for \"" ++ name ++ "\" at " ++ installedTo
  | DiagKind.planMissingImport name =>
      "Plan \"" ++ name ++ "\" is installed but missing from CLAUDE.md imports"
  | DiagKind.danglingImport name =>
      "CLAUDE.md imports \"" ++ name ++ "\" but the file doesn't exist at plans/" ++ name ++ ".md"
  | DiagKind.untrackedImport name =>
      "CLAUDE.md imports \"" ++ name ++ "\" but it's not tracked in planmode.lock"
  | DiagKind.claudeMdMissing =>
      "CLAUDE.md is missing but plans are installed"
  | DiagKind.untrackedPlanFile file =>
      "Untracked plan file: plans/" ++ file

/-- The `fix` hint of each issue. -/
def fixOf : DiagKind → Option String
  | DiagKind.missingFile name _ =>
      some ("Run `planmode install " ++ name ++ "` to reinstall")
  | DiagKind.hashMismatch _ _ =>
      some "File was modified locally. Run `planmode update <name>` to restore, or ignore if intentional"
  | DiagKind.planMissingImport name =>
      some ("Add `- @plans/" ++ name ++ ".md` to the # Planmode section of CLAUDE.md")
  | DiagKind.danglingImport name =>
      some ("Run `planmode install " ++ name ++ "` or remove the import from CLAUDE.md")
  | DiagKind.untrackedImport _ =>
      some "This plan was added manually. No action needed unless you want lockfile tracking."
  | DiagKind.claudeMdMissing =>
      some "Run `planmode install <any-plan>` to recreate it, or create it manually with a # Planmode section"
  | DiagKind.untrackedPlanFile _ =>
      some "This file isn't managed by planmode. Ignore if intentional."

/-- Embeds the `DoctorResult` interface. -/
structure DoctorResult where
  issues : List DiagnosticIssue
  packagesChecked : Nat
  healthy : Bool
deriving DecidableEq, Repr

/-- The imports listed in `CLAUDE.md` (the doctor's `imports`). -/
def importsOf (s : ProjectState) : List String :=
  listImports (readFileFS s claudeMdName)

/-- The doctor's `installedPlans`: names of plan-typed lockfile entries. -/
def installedPlansOf (s : ProjectState) : List String :=
  (s.lockfile.packages.filter (fun p => p.2.type == PackageType.plan)).map Prod.fst

/-- The file path backing a ledger entry: `plans/<name>.md`. -/
def planFilePath (name : String) : String :=
  "plans/" ++ name ++ ".md"

/-- `fs.readdirSync("plans")`: entries directly under `plans/`
(modelled from the flat file map; nested files are not produced by the
core and are ignored). -/
def plansDirListing (s : ProjectState) : List String :=
  s.files.filterMap (fun pc =>
    if isPrefixOfB "plans/".data pc.1.data then
      let rest := pc.1.data.drop "plans/".data.length
      if rest.contains '/' then none else some (⟨rest⟩ : String)
    else none)

/-- `fs.existsSync(plansDir)`. -/
def plansDirExists (s : ProjectState) : Bool :=
  s.files.any (fun pc => isPrefixOfB "plans/".data pc.1.data)

/-- `file.replace(/\.md$/, "")`. -/
def stripMdSuffix (file : String) : String :=
  if isSuffixOfB ".md".data file.data then ⟨file.data.take (file.data.length - 3)⟩ else file

/-- The doctor's per-lockfile-entry pass: missing file is an error,
hash drift a warning (`computeHash` is the `hash` parameter). -/
def fileIssuesOf (hash : String → String) (s : ProjectState) : List DiagnosticIssue :=
  s.lockfile.packages.flatMap (fun pe =>
    match readFileFS s pe.2.installed_to with
    | none => [⟨Severity.error, DiagKind.missingFile pe.1 pe.2.installed_to⟩]
    | some content =>
      if hash content ≠ pe.2.content_hash then
        [⟨Severity.warning, DiagKind.hashMismatch pe.1 pe.2.installed_to⟩]
      else [])

/-- The doctor's pass over installed plans: absence from the
`CLAUDE.md` imports is an error. -/
def planIssuesOf (s : ProjectState) : List DiagnosticIssue :=
  (installedPlansOf s).flatMap (fun planName =>
    if planName ∈ importsOf s then []
    else [⟨Severity.error, DiagKind.planMissingImport planName⟩])

/-- The doctor's pass over `CLAUDE.md` imports that are not installed
plans: backing file present means a warning, absent an error. -/
def importIssuesOf (s : ProjectState) : List DiagnosticIssue :=
  (importsOf s).flatMap (fun importName =>
    if importName ∈ installedPlansOf s then []
    else if fileExists s (planFilePath importName) then
      [⟨Severity.warning, DiagKind.untrackedImport importName⟩]
    else
      [⟨Severity.error, DiagKind.danglingImport importName⟩])

/-- The doctor's check that `CLAUDE.md` exists when plans are
installed. -/
def claudeIssuesOf (s : ProjectState) : List DiagnosticIssue :=
  if (installedPlansOf s).length > 0 && !(fileExists s claudeMdName) then
    [⟨Severity.error, DiagKind.claudeMdMissing⟩]
  else []

/-- The doctor's scan of the `plans/` directory for untracked files. -/
def orphanIssuesOf (s : ProjectState) : List DiagnosticIssue :=
  if plansDirExists s then
    ((plansDirListing s).filter (fun f => isSuffixOfB ".md".data f.data)).flatMap (fun file =>
      if (s.lockfile.packages.lookup (stripMdSuffix file)).isSome then []
      else [⟨Severity.warning, DiagKind.untrackedPlanFile file⟩])
  else []

/-- Embeds `runDoctor`.  `hash` is the external `sha256` digest
(`computeHash`).  The five issue-producing passes run in source order;
`healthy` is true exactly when no error-severity issue was pushed. -/
def runDoctor (hash : String → String) (s : ProjectState) : DoctorResult :=
  let issues := fileIssuesOf hash s ++ planIssuesOf s ++ importIssuesOf s ++
    claudeIssuesOf s ++ orphanIssuesOf s
  { issues := issues
    packagesChecked := s.lockfile.packages.length
    healthy := (issues.filter (fun i => i.severity == Severity.error)).length == 0 }

/-! ## Installer (cli/src/lib/installer.ts)

The registry/network, the YAML manifest parser and the template
renderer are the external collaborators the installer awaits; they are
modelled as fields of `RegistryEnv`.  `writeFails` is the failure
oracle for `fs.writeFileSync` on content files.  Recursion depth is
made explicit by a fuel argument: `installGo env fuel` is the source's
`installPackage` truncated at recursion depth `fuel`, so a run that
exhausts every fuel bound is a run that never terminates. -/

/-- Declared variable metadata (`VariableDefinition`), consumed
opaquely by the external renderer. -/
structure VariableDefinition where
  description : String
  required : Bool
  defaultValue : Option String
deriving DecidableEq, Repr

/-- The `dependencies` block of a manifest. -/
structure Dependencies where
  rules : Option (List String)
  plans : Option (List String)
deriving DecidableEq, Repr

/-- The manifest fields the installer consumes (`PackageManifest`);
presentation-only fields are omitted as unused, and the `variables`
field is spelt `varDefs` (`variables` is reserved in Lean). -/
structure PackageManifest where
  name : String
  version : String
  type : PackageType
  dependencies : Option Dependencies
  varDefs : Option (List (String × VariableDefinition))
  content : Option String
  content_file : Option String
deriving DecidableEq, Repr

/-- Source location inside `VersionMetadata`. -/
structure VersionMetaSource where
  repository : String
  tag : String
  sha : String
  path : Option String
deriving DecidableEq, Repr

/-- The version metadata fields the installer consumes. -/
structure VersionMetadata where
  source : VersionMetaSource
  content_hash : String
deriving DecidableEq, Repr

/-- Typed failures of the install/uninstall flow (the thrown and
propagated `Error`s).  `fuelExhausted` marks a run cut off by the
explicit recursion-depth bound. -/
inductive InstallError
  | resolveFailed (e : ResolveError)
  | versionMetaNotFound (name version : String)
  | fetchFailed (repo tag path : String)
  | manifestParseFailed (msg : String)
  | noContent
  | missingVariable (msg : String)
  | writeFailed (path : String)
  | notInstalled (name : String)
  | fuelExhausted
deriving DecidableEq, Repr

/-- External collaborators of the installer. -/
structure RegistryEnv where
  metadata : String → Option PackageMetadata
  versionMeta : String → String → Option VersionMetadata
  file : String → String → String → Option String
  parseManifest : String → Except String PackageManifest
  collectValues : List (String × VariableDefinition) → List (String × String) → Except String (List (String × String))
  render : String → List (String × String) → String
  hash : String → String
  writeFails : String → Bool

/-- Embeds the `InstallOptions` interface (`projectDir` is the
`ProjectState` argument itself; the `variables` field is spelt
`varValues`). -/
structure InstallOptions where
  version : Option String := none
  forceRule : Bool := false
  noInput : Bool := false
  varValues : List (String × String) := []
deriving DecidableEq, Repr

/-- Observable actions of a run, in order (log-relevant effects and
collaborator calls). -/
inductive Event
  | resolve (name : String)
  | fetchVersionMeta (name version : String)
  | fetchFile (repo tag path : String)
  | warnOverwrite (path : String)
  | writeFile (path : String)
  | ledgerAdd (name : String)
  | lockAdd (name : String)
  | removeFile (path : String)
  | ledgerRemove (name : String)
  | lockRemove (name : String)
deriving DecidableEq, Repr

/-- Result of a run: outcome, final state, event trace of this call. -/
def InstallResult : Type :=
  Except InstallError Unit × ProjectState × List Event

/-- `getInstallDir`. -/
def getInstallDir : PackageType → String
  | PackageType.plan => "plans"
  | PackageType.rule => ".claude/rules"
  | PackageType.prompt => "prompts"

/-- `getInstallPath`. -/
def getInstallPath (name : String) (t : PackageType) : String :=
  getInstallDir t ++ "/" ++ name ++ ".md"

/-- `resolveVersion` including the metadata fetch (the `await
fetchPackageMetadata` followed by the pure selection). -/
def resolveVersionM (env : RegistryEnv) (packageName : String)
    (versionRange : Option String) : Except ResolveError String :=
  match env.metadata packageName with
  | none => Except.error (ResolveError.packageNotFound packageName)
  | some metadata => resolveVersionPure packageName metadata versionRange

/-- The `basePath` prefix derived from `versionMeta.source.path`. -/
def basePathOf (vm : VersionMetadata) : String :=
  match vm.source.path with
  | some p => p ++ "/"
  | none => ""

/-- The `content_file` arm of content acquisition. -/
def fetchContentFileStep (env : RegistryEnv) (vm : VersionMetadata)
    (manifest : PackageManifest) : Except InstallError (String × List Event) :=
  match manifest.content_file with
  | some cf =>
    let p := basePathOf vm ++ cf
    match env.file vm.source.repository vm.source.tag p with
    | none => Except.error (InstallError.fetchFailed vm.source.repository vm.source.tag p)
    | some c => Except.ok (c, [Event.fetchFile vm.source.repository vm.source.tag p])
  | none => Except.error InstallError.noContent

/-- The content-acquisition step: inline `manifest.content` if truthy
(JS: a non-empty string), else fetch `manifest.content_file`, else
throw `"Package has no content or content_file"`. -/
def fetchContentStep (env : RegistryEnv) (vm : VersionMetadata)
    (manifest : PackageManifest) : Except InstallError (String × List Event) :=
  match manifest.content with
  | some c =>
    if c ≠ "" then Except.ok (c, [])
    else fetchContentFileStep env vm manifest
  | none => fetchContentFileStep env vm manifest

/-- The variable-processing step.  In `installer.ts` the `noInput`
branch and its else branch are identical (both collect defaults and
render), so a single path embeds both. -/
def renderStep (env : RegistryEnv) (manifest : PackageManifest)
    (options : InstallOptions) (content : String) : Except InstallError String :=
  match manifest.varDefs with
  | some vars =>
    if vars.length > 0 then
      match env.collectValues vars options.varValues with
      | Except.error msg => Except.error (InstallError.missingVariable msg)
      | Except.ok values => Except.ok (env.render content values)
    else Except.ok content
  | none => Except.ok content

/-- The sequential dependency fan-out loop of `installPackage`,
parameterised by the recursive re-entry into the state machine (the
`await installPackage(name, {...})` call): each dependency re-enters
the whole state machine; the first failure aborts the entire
operation. -/
def installDepsWith (inst : String → InstallOptions → ProjectState → InstallResult) :
    List String → InstallOptions → ProjectState → InstallResult
  | [], _, s => (Except.ok (), s, [])
  | dep :: rest, options, s =>
    let nr := parseDepString dep
    let childOptions : InstallOptions :=
      { version := if nr.2 == "*" then none else some nr.2
        forceRule := false
        noInput := options.noInput
        varValues := [] }
    let r := inst nr.1 childOptions s
    match r.1 with
    | Except.error e => (Except.error e, r.2.1, r.2.2)
    | Except.ok _ =>
      let r2 := installDepsWith inst rest options r.2.1
      (r2.1, r2.2.1, r.2.2 ++ r2.2.2)

/-- Embeds `installPackage`, truncated at recursion depth `fuel`. -/
def installGo (env : RegistryEnv) : Nat → String → InstallOptions → ProjectState → InstallResult
  | 0, _, _, s => (Except.error InstallError.fuelExhausted, s, [])
  | Nat.succ fuel, packageName, options, s =>
    -- Check lockfile first
    if (getLockedVersionS packageName s).isSome && options.version.isNone then
      (Except.ok (), s, [])
    else
      -- Resolve version
      match resolveVersionM env packageName options.version with
      | Except.error e => (Except.error (InstallError.resolveFailed e), s, [Event.resolve packageName])
      | Except.ok version =>
      -- Fetch version metadata
      match env.versionMeta packageName version with
      | none =>
        (Except.error (InstallError.versionMetaNotFound packageName version), s,
          [Event.resolve packageName, Event.fetchVersionMeta packageName version])
      | some versionMeta =>
      let tr0 := [Event.resolve packageName, Event.fetchVersionMeta packageName version]
      -- Fetch manifest
      let manifestPath := basePathOf versionMeta ++ "planmode.yaml"
      match env.file versionMeta.source.repository versionMeta.source.tag manifestPath with
      | none =>
        (Except.error (InstallError.fetchFailed versionMeta.source.repository
            versionMeta.source.tag manifestPath), s, tr0)
      | some manifestRaw =>
      let tr1 := tr0 ++ [Event.fetchFile versionMeta.source.repository versionMeta.source.tag manifestPath]
      match env.parseManifest manifestRaw with
      | Except.error msg => (Except.error (InstallError.manifestParseFailed msg), s, tr1)
      | Except.ok manifest =>
      -- Fetch content
      match fetchContentStep env versionMeta manifest with
      | Except.error e => (Except.error e, s, tr1)
      | Except.ok (rawContent, trC) =>
      let tr2 := tr1 ++ trC
      -- Process variables if templated
      match renderStep env manifest options rawContent with
      | Except.error e => (Except.error e, s, tr2)
      | Except.ok content =>
      -- Determine type (--rule overrides)
      let type := if options.forceRule then PackageType.rule else manifest.type
      let installPath := getInstallPath packageName type
      -- Check for conflicts (logging only)
      let conflictTr :=
        match readFileFS s installPath with
        | some existingContent =>
          if env.hash existingContent == env.hash content then []
          else [Event.warnOverwrite installPath]
        | none => []
      -- Create directory and write file
      if env.writeFails installPath then
        (Except.error (InstallError.writeFailed installPath), s, tr2 ++ conflictTr)
      else
        let s1 := writeFileFS s installPath content
        let tr3 := tr2 ++ conflictTr ++ [Event.writeFile installPath]
        -- Update CLAUDE.md for plans
        let s2 := if type == PackageType.plan then addImportS packageName s1 else s1
        let tr4 := if type == PackageType.plan then tr3 ++ [Event.ledgerAdd packageName] else tr3
        -- Update lockfile
        let entry : LockfileEntry :=
          { version := version
            type := type
            source := versionMeta.source.repository
            tag := versionMeta.source.tag
            sha := versionMeta.source.sha
            content_hash := env.hash content
            installed_to := installPath }
        let s3 := addToLockfileS packageName entry s2
        let tr5 := tr4 ++ [Event.lockAdd packageName]
        -- Install dependencies
        match manifest.dependencies with
        | none => (Except.ok (), s3, tr5)
        | some deps =>
          let depList := deps.rules.getD [] ++ deps.plans.getD []
          let r := installDepsWith (installGo env fuel) depList options s3
          (r.1, r.2.1, tr5 ++ r.2.2)

/-- Embeds `uninstallPackage`. -/
def uninstallPackageS (packageName : String) (s : ProjectState) : InstallResult :=
  match getLockedVersionS packageName s with
  | none => (Except.error (InstallError.notInstalled packageName), s, [])
  | some locked =>
    -- Remove file
    let s1 := if fileExists s locked.installed_to then removeFileFS s locked.installed_to else s
    let tr1 := if fileExists s locked.installed_to then [Event.removeFile locked.installed_to] else []
    -- Remove import from CLAUDE.md
    let s2 := if locked.type == PackageType.plan then removeImportS packageName s1 else s1
    let tr2 := if locked.type == PackageType.plan then tr1 ++ [Event.ledgerRemove packageName] else tr1
    -- Update lockfile
    let s3 := removeFromLockfileS packageName s2
    (Except.ok (), s3, tr2 ++ [Event.lockRemove packageName])

/-- Triple-wise (lexicographic) comparison on parsed versions: major,
then minor, then patch.  This is the ordering the specification's
"maximum under triple-wise numeric comparison" refers to. -/
def semLe (x y : Semver) : Prop :=
  x.major < y.major ∨
    (x.major = y.major ∧
      (x.minor < y.minor ∨ (x.minor = y.minor ∧ x.patch ≤ y.patch)))

instance (x y : Semver) : Decidable (semLe x y) := by
  unfold semLe
  infer_instance

/-! ## Concrete instances used by witnesses and counterexamples -/

/-- The registry metadata of the specification's resolver scenario
(versions 1.0.0, 1.1.0, 1.2.0). -/
def specMetadata : PackageMetadata :=
  ⟨"p", "1.2.0", ["1.0.0", "1.1.0", "1.2.0"]⟩

/-- Registry metadata whose `latest_version` field does not point at
the numerically largest candidate. -/
def staleLatestMetadata : PackageMetadata :=
  ⟨"pkg-a", "1.0.0", ["1.0.0", "2.0.0"]⟩

/-- An empty project: no files, empty lockfile. -/
def emptyProject : ProjectState :=
  ⟨[], emptyLockfile⟩

/-- Registry metadata for the cyclic pair member `pkg-a`. -/
def cycMetaA : PackageMetadata := ⟨"pkg-a", "1.0.0", ["1.0.0"]⟩

/-- Registry metadata for the cyclic pair member `pkg-b`. -/
def cycMetaB : PackageMetadata := ⟨"pkg-b", "1.0.0", ["1.0.0"]⟩

/-- Version metadata for `pkg-a@1.0.0`. -/
def cycVmA : VersionMetadata := ⟨⟨"r-a", "v1", "sha-a", none⟩, ""⟩

/-- Version metadata for `pkg-b@1.0.0`. -/
def cycVmB : VersionMetadata := ⟨⟨"r-b", "v1", "sha-b", none⟩, ""⟩

/-- Manifest of `pkg-a`: a rule depending on `pkg-b@^1.0.0`. -/
def cycManifestA : PackageManifest :=
  ⟨"pkg-a", "1.0.0", PackageType.rule, some ⟨some ["pkg-b@^1.0.0"], none⟩, none, some "content-a", none⟩

/-- Manifest of `pkg-b`: a rule depending back on `pkg-a@^1.0.0`. -/
def cycManifestB : PackageManifest :=
  ⟨"pkg-b", "1.0.0", PackageType.rule, some ⟨some ["pkg-a@^1.0.0"], none⟩, none, some "content-b", none⟩

/-- A registry in which `pkg-a` and `pkg-b` declare each other as
dependencies (a cyclic rule pair); every fetch succeeds and every
write succeeds. -/
def cycEnv : RegistryEnv :=
  { metadata := fun n => if n = "pkg-a" then some cycMetaA else if n = "pkg-b" then some cycMetaB else none
    versionMeta := fun n v =>
      if n = "pkg-a" ∧ v = "1.0.0" then some cycVmA
      else if n = "pkg-b" ∧ v = "1.0.0" then some cycVmB
      else none
    file := fun repo _ p =>
      if p = "planmode.yaml" then
        if repo = "r-a" then some "manifest-a" else if repo = "r-b" then some "manifest-b" else none
      else none
    parseManifest := fun raw =>
      if raw = "manifest-a" then Except.ok cycManifestA
      else if raw = "manifest-b" then Except.ok cycManifestB
      else Except.error "bad manifest"
    collectValues := fun _ _ => Except.ok []
    render := fun c _ => c
    hash := fun s => "sha256:" ++ s
    writeFails := fun _ => false }

/-- The options the dependency fan-out constructs for a `^1.0.0`
constraint. -/
def cycOptions : InstallOptions :=
  { version := some "^1.0.0", forceRule := false, noInput := false, varValues := [] }

/-- Manifest of `pkg-a` without dependencies (for the short-circuit
counterexample). -/
def soloManifestA : PackageManifest :=
  ⟨"pkg-a", "1.0.0", PackageType.rule, none, none, some "content-a", none⟩

/-- A registry holding only the dependency-free `pkg-a`. -/
def soloEnv : RegistryEnv :=
  { metadata := fun n => if n = "pkg-a" then some cycMetaA else none
    versionMeta := fun n v => if n = "pkg-a" ∧ v = "1.0.0" then some cycVmA else none
    file := fun repo _ p => if repo = "r-a" ∧ p = "planmode.yaml" then some "manifest-a" else none
    parseManifest := fun raw => if raw = "manifest-a" then Except.ok soloManifestA else Except.error "bad"
    collectValues := fun _ _ => Except.ok []
    render := fun c _ => c
    hash := fun s => "sha256:" ++ s
    writeFails := fun _ => false }

/-- The lockfile entry recorded by a completed `pkg-a@1.0.0` rule
install. -/
def soloEntryA : LockfileEntry :=
  ⟨"1.0.0", PackageType.rule, "r-a", "v1", "sha-a", "sha256:content-a", ".claude/rules/pkg-a.md"⟩

/-- A project in which `pkg-a@1.0.0` is already installed and its
content file is present unmodified. -/
def soloState : ProjectState :=
  ⟨[(".claude/rules/pkg-a.md", "content-a")], ⟨1, [("pkg-a", soloEntryA)]⟩⟩

/-- Manifest of the plan package `plan-a` (no dependencies, no
variables), for the type-override witness. -/
def planManifestA : PackageManifest :=
  ⟨"plan-a", "1.0.0", PackageType.plan, none, none, some "plan body", none⟩

/-- A registry holding only the plan package `plan-a`. -/
def planEnv : RegistryEnv :=
  { metadata := fun n => if n = "plan-a" then some ⟨"plan-a", "1.0.0", ["1.0.0"]⟩ else none
    versionMeta := fun n v => if n = "plan-a" ∧ v = "1.0.0" then some cycVmA else none
    file := fun repo _ p => if repo = "r-a" ∧ p = "planmode.yaml" then some "manifest-plan" else none
    parseManifest := fun raw => if raw = "manifest-plan" then Except.ok planManifestA else Except.error "bad"
    collectValues := fun _ _ => Except.ok []
    render := fun c _ => c
    hash := fun s => "sha256:" ++ s
    writeFails := fun _ => false }

/-- The solo registry with every filesystem write failing. -/
def failWriteEnv : RegistryEnv :=
  { soloEnv with writeFails := fun _ => true }

/-- A plan-typed lockfile entry for the doctor witnesses. -/
def planEntryP1 : LockfileEntry :=
  ⟨"1.0.0", PackageType.plan, "r-a", "v1", "sha-1", "sha256:x", "plans/p1.md"⟩

/-- A project exercising all three ledger-consistency cases: `p1` is a
plan in the lockfile but absent from `CLAUDE.md`; `p2` is imported with
no backing file; `p3` is imported with a backing file but no lockfile
entry. -/
def doctorState : ProjectState :=
  ⟨[("CLAUDE.md", "# Planmode\n- @plans/p2.md\n- @plans/p3.md\n"), ("plans/p3.md", "x")],
    ⟨1, [("p1", planEntryP1)]⟩⟩

/-- The project state of the hash-drift scenario: a plan `name` is
installed (lockfile entry recording `recorded` as content hash, with
the ledger import present) and its backing file holds `edited`
content. -/
def editedPlanState (name edited recorded : String) : ProjectState :=
  ⟨[(planFilePath name, edited),
    (claudeMdName, "# Planmode" ++ "\n" ++ importLineFor name ++ "\n")],
    ⟨1, [(name, ⟨"1.0.0", PackageType.plan, "r-a", "v1", "sha-1", recorded, planFilePath name⟩)]⟩⟩

/-! ## Theorems.  General lemmas first, then one theorem per claim
(with its witness or counterexample). -/

theorem compareVersions_self (a : String) : compareVersions a a = 0 := by
  unfold compareVersions
  simp

theorem verLe_iff_semLe (a b : String) :
    verLe a b ↔ semLe (parseSemverD a) (parseSemverD b) := by
  unfold verLe compareVersions semLe
  dsimp only
  split_ifs with h1 h2 <;> constructor <;> intro h <;> omega

instance : IsTotal String verLe := by
  constructor
  intro a b
  rw [verLe_iff_semLe, verLe_iff_semLe]
  unfold semLe
  omega

instance : IsTrans String verLe := by
  constructor
  intro a b c hab hbc
  rw [verLe_iff_semLe] at hab hbc ⊢
  unfold semLe at hab hbc ⊢
  omega

theorem verLe_refl (a : String) : verLe a a := by
  unfold verLe
  rw [compareVersions_self]

theorem mem_of_getLastQ {l : List α} {a : α} (h : l.getLast? = some a) : a ∈ l := by
  induction l with
  | nil => simp at h
  | cons b t ih =>
    cases t with
    | nil =>
      simp [List.getLast?] at h
      simp [h]
    | cons c t' =>
      rw [List.getLast?_cons_cons] at h
      exact List.mem_cons_of_mem b (ih h)

theorem getLastQ_upper {R : α → α → Prop} {l : List α} {a : α}
    (hp : List.Pairwise R l) (h : l.getLast? = some a) :
    ∀ x ∈ l, x = a ∨ R x a := by
  induction l with
  | nil => simp
  | cons b t ih =>
    intro x hx
    cases t with
    | nil =>
      simp [List.getLast?] at h
      simp at hx
      left
      rw [hx, h]
    | cons c t' =>
      rw [List.getLast?_cons_cons] at h
      rcases List.mem_cons.mp hx with hxb | hxt
      · right
        rw [hxb]
        exact (List.pairwise_cons.mp hp).1 a (mem_of_getLastQ h)
      · exact ih (List.pairwise_cons.mp hp).2 h x hxt

/-- C1 (amended): for an explicit constraint (exact `X.Y.Z`, caret,
tilde, `>=X.Y.Z`, or `*` — i.e. any constraint string accepted by
`parseVersionRange` other than the `latest` keyword), `resolveVersion`
returns a candidate from the metadata's version list that satisfies
the constraint and is maximal among satisfying candidates under
triple-wise numeric comparison; when no candidate satisfies it, it
fails with the version-not-found error enumerating all candidates. -/
theorem claim1_resolveVersion_max (packageName : String) (md : PackageMetadata)
    (c : String) (range : VersionRange)
    (hlat : c ≠ "latest") (hr : parseVersionRange? c = some range) :
    (∃ m, resolveVersionPure packageName md (some c) = Except.ok m ∧
        m ∈ md.versions ∧ satisfiesStr m range = true ∧
        ∀ v ∈ md.versions, satisfiesStr v range = true →
          semLe (parseSemverD v) (parseSemverD m)) ∨
    (resolveVersionPure packageName md (some c) =
        Except.error (ResolveError.versionNotFound c packageName md.versions) ∧
      ∀ v ∈ md.versions, satisfiesStr v range = false) := by
  have hbeq : (c == "latest") = false := beq_eq_false_iff_ne.mpr hlat
  unfold resolveVersionPure
  dsimp only
  rw [hbeq, hr]
  dsimp only
  set L := (md.versions.filter (fun v => satisfiesStr v range)).insertionSort verLe with hLdef
  have hperm : L.Perm (md.versions.filter (fun v => satisfiesStr v range)) :=
    List.perm_insertionSort verLe _
  cases hL : L.getLast? with
  | none =>
    right
    have hLnil : L = [] := List.getLast?_eq_none_iff.mp hL
    have hfil : md.versions.filter (fun v => satisfiesStr v range) = [] := by
      have := hperm
      rw [hLnil] at this
      exact (List.Perm.nil_eq this).symm
    constructor
    · rfl
    · intro v hv
      by_contra hvs
      have : v ∈ md.versions.filter (fun v => satisfiesStr v range) := by
        rw [List.mem_filter]
        exact ⟨hv, by simpa using hvs⟩
      rw [hfil] at this
      simp at this
  | some m =>
    left
    refine ⟨m, rfl, ?_, ?_, ?_⟩
    · have : m ∈ L := mem_of_getLastQ hL
      have := hperm.mem_iff.mp this
      exact (List.mem_filter.mp this).1
    · have : m ∈ L := mem_of_getLastQ hL
      have := hperm.mem_iff.mp this
      exact (List.mem_filter.mp this).2
    · intro v hv hvs
      have hvL : v ∈ L := by
        apply hperm.mem_iff.mpr
        rw [List.mem_filter]
        exact ⟨hv, hvs⟩
      have hsorted : List.Pairwise verLe L := List.sorted_insertionSort verLe _
      rcases getLastQ_upper hsorted hL v hvL with heq | hle
      · rw [heq]
        exact (verLe_iff_semLe m m).mp (verLe_refl m)
      · exact (verLe_iff_semLe v m).mp hle

/-- C1 witness: the amended theorem applied to the specification's
scenario (`^1.0.0` over 1.0.0/1.1.0/1.2.0). -/
theorem claim1_resolveVersion_max_witness :
    (∃ m, resolveVersionPure "p" specMetadata (some "^1.0.0") = Except.ok m ∧
        m ∈ specMetadata.versions ∧
        satisfiesStr m ⟨RangeOp.caret, 1, 0, 0⟩ = true ∧
        ∀ v ∈ specMetadata.versions, satisfiesStr v ⟨RangeOp.caret, 1, 0, 0⟩ = true →
          semLe (parseSemverD v) (parseSemverD m)) ∨
    (resolveVersionPure "p" specMetadata (some "^1.0.0") =
        Except.error (ResolveError.versionNotFound "^1.0.0" "p" specMetadata.versions) ∧
      ∀ v ∈ specMetadata.versions, satisfiesStr v ⟨RangeOp.caret, 1, 0, 0⟩ = false) :=
  claim1_resolveVersion_max "p" specMetadata "^1.0.0" ⟨RangeOp.caret, 1, 0, 0⟩
    (by decide) (by decide)

/-- C1 counterexample: with the constraint absent, `resolveVersion`
returns the registry's `latest_version` field without consulting the
candidate list, so on metadata whose `latest_version` lags behind the
candidates it does not return the maximum satisfying candidate (here
`2.0.0` satisfies the unconstrained range and is strictly greater). -/
theorem claim1_resolveVersion_absent_counterexample :
    resolveVersionPure "pkg-a" staleLatestMetadata none = Except.ok "1.0.0" ∧
    "2.0.0" ∈ staleLatestMetadata.versions ∧
    satisfiesStr "2.0.0" ⟨RangeOp.any, 0, 0, 0⟩ = true ∧
    ¬ semLe (parseSemverD "2.0.0") (parseSemverD "1.0.0") := by
  decide

/-- C7: `readLockfile` is total on its input (a Lean function, it can
raise nothing), and on an absent file, a parser that throws, or a
parser that yields `null`, it returns the empty valid lockfile
structure with no package entries. -/
theorem claim7_readLockfile_total (parseYaml : String → Option (Option Lockfile))
    (raw : Option String)
    (hbad : raw = none ∨ ∃ s, raw = some s ∧ (parseYaml s = none ∨ parseYaml s = some none)) :
    readLockfile parseYaml raw = { lockfile_version := 1, packages := [] } := by
  rcases hbad with h | ⟨s, hs, hp | hp⟩
  · rw [h]
    rfl
  · rw [hs]
    unfold readLockfile
    dsimp only
    rw [hp]
    rfl
  · rw [hs]
    unfold readLockfile
    dsimp only
    rw [hp]
    rfl

/-- C7 witness: an unparseable lockfile (the parser throws on every
input) reads back as the empty structure. -/
theorem claim7_readLockfile_total_witness :
    readLockfile (fun _ => none) (some "corrupt ][ yaml") =
      { lockfile_version := 1, packages := [] } :=
  claim7_readLockfile_total (fun _ => none) (some "corrupt ][ yaml")
    (Or.inr ⟨"corrupt ][ yaml", rfl, Or.inl rfl⟩)

theorem isPrefixOfB_iff {p l : List Char} : isPrefixOfB p l = true ↔ p <+: l := by
  simp [isPrefixOfB]

theorem isSuffixOfB_iff {p l : List Char} : isSuffixOfB p l = true ↔ p <:+ l := by
  simp [isSuffixOfB]

theorem includesStr_iff {s sub : String} : includesStr s sub = true ↔ sub.data <:+: s.data := by
  simp [includesStr]

theorem replaceFirstL_found {pat : List Char} (repl : List Char) (hpat : pat ≠ []) :
    ∀ {s : List Char}, pat <:+: s →
      ∃ pre post, s = pre ++ pat ++ post ∧ replaceFirstL pat repl s = pre ++ repl ++ post := by
  intro s
  induction s with
  | nil =>
    intro h
    exact absurd (List.eq_nil_of_infix_nil h) hpat
  | cons c rest ih =>
    intro h
    by_cases hp : isPrefixOfB pat (c :: rest) = true
    · rcases isPrefixOfB_iff.mp hp with ⟨t, ht⟩
      refine ⟨[], t, ?_, ?_⟩
      · simp [← ht]
      · unfold replaceFirstL
        rw [if_pos hp]
        simp [← ht]
    · have hnotpre : ¬ pat <+: c :: rest := fun hc => hp (isPrefixOfB_iff.mpr hc)
      have hrest : pat <:+: rest := by
        rcases List.infix_cons_iff.mp h with hc | hc
        · exact absurd hc hnotpre
        · exact hc
      rcases ih hrest with ⟨pre, post, hdec, hrepl⟩
      refine ⟨c :: pre, post, ?_, ?_⟩
      · simp [hdec]
      · unfold replaceFirstL
        rw [if_neg hp, hrepl]
        simp

theorem data_append3 (a b c : String) : (a ++ b ++ c).data = a.data ++ b.data ++ c.data := by
  rw [String.data_append, String.data_append]

theorem importLine_infix_addImportDoc (planName : String) (doc : Option String) :
    (importLineFor planName).data <:+: (addImportDoc planName doc).data := by
  unfold addImportDoc
  cases doc with
  | none =>
    dsimp only
    rw [String.data_append, String.data_append]
    exact List.infix_append _ _ _
  | some content =>
    dsimp only
    by_cases h1 : includesStr content (importLineFor planName) = true
    · rw [if_pos h1]
      exact includesStr_iff.mp h1
    · rw [if_neg h1]
      by_cases h2 : includesStr content planmodeSection = true
      · rw [if_pos h2]
        have hsec : planmodeSection.data <:+: content.data := includesStr_iff.mp h2
        have hpat : planmodeSection.data ≠ [] := by decide
        rcases replaceFirstL_found (planmodeSection ++ "\n" ++ importLineFor planName).data hpat hsec with
          ⟨pre, post, hdec, hrepl⟩
        show (importLineFor planName).data <:+: (replaceFirst content planmodeSection
          (planmodeSection ++ "\n" ++ importLineFor planName)).data
        have hres : (replaceFirst content planmodeSection
            (planmodeSection ++ "\n" ++ importLineFor planName)).data =
            pre ++ (planmodeSection ++ "\n" ++ importLineFor planName).data ++ post := hrepl
        rw [hres, data_append3]
        have hinner : (importLineFor planName).data <:+:
            planmodeSection.data ++ "\n".data ++ (importLineFor planName).data := by
          have := List.suffix_append (planmodeSection.data ++ "\n".data) (importLineFor planName).data
          rw [List.append_assoc] at this ⊢
          exact this.isInfix
        calc (importLineFor planName).data
            <:+: planmodeSection.data ++ "\n".data ++ (importLineFor planName).data := hinner
          _ <:+: pre ++ (planmodeSection.data ++ "\n".data ++ (importLineFor planName).data) ++ post :=
              List.infix_append _ _ _
      · rw [if_neg h2]
        refine ⟨(content ++ (if isSuffixOfB ['\n'] content.data = true then ("\n" : String) else "\n\n") ++
          planmodeSection ++ "\n").data, "\n".data, ?_⟩
        simp [String.data_append, List.append_assoc]

theorem mem_splitOnP_false (p : Char → Bool) (xs : List Char) :
    ∀ l ∈ List.splitOnP p xs, ∀ c ∈ l, p c = false := by
  induction xs with
  | nil =>
    intro l hl c hc
    rw [List.splitOnP_nil] at hl
    simp at hl
    subst hl
    simp at hc
  | cons a t ih =>
    intro l hl c hc
    rw [List.splitOnP_cons] at hl
    by_cases hpa : p a
    · rw [if_pos hpa] at hl
      rcases List.mem_cons.mp hl with h | h
      · subst h
        simp at hc
      · exact ih l h c hc
    · rw [if_neg hpa] at hl
      cases hsplit : List.splitOnP p t with
      | nil => exact absurd hsplit (List.splitOnP_ne_nil p t)
      | cons hd tl =>
        rw [hsplit] at hl
        simp only [List.modifyHead] at hl
        rcases List.mem_cons.mp hl with h | h
        · subst h
          rcases List.mem_cons.mp hc with hca | hch
          · subst hca
            simpa using hpa
          · exact ih hd (by rw [hsplit]; exact List.mem_cons_self hd tl) c hch
        · exact ih l (by rw [hsplit]; exact List.mem_cons_of_mem hd h) c hc

theorem newline_not_mem_splitLines (s : String) :
    ∀ l ∈ splitLines s, '\n' ∉ l.data := by
  intro l hl
  unfold splitLines at hl
  rcases List.mem_map.mp hl with ⟨cl, hcl, hmk⟩
  intro hmem
  have hdata : l.data = cl := by rw [← hmk]
  rw [hdata] at hmem
  have := mem_splitOnP_false (fun c => c == '\n') s.data cl hcl '\n' hmem
  simp at this

theorem data_mk_map (L : List (List Char)) :
    (L.map (fun l => (⟨l⟩ : String))).map String.data = L := by
  rw [List.map_map]
  exact List.map_id'' (fun _ => rfl) L

theorem joinLines_splitLines (s : String) : joinLines (splitLines s) = s := by
  unfold joinLines splitLines
  rw [data_mk_map]
  show String.mk (['\n'].intercalate (List.splitOn '\n' s.data)) = s
  rw [List.intercalate_splitOn]

theorem splitLines_joinLines (ls : List String)
    (hnl : ∀ l ∈ ls, '\n' ∉ l.data) (hne : ls ≠ []) :
    splitLines (joinLines ls) = ls := by
  unfold joinLines splitLines
  show (List.splitOn '\n' (String.mk (['\n'].intercalate (ls.map String.data))).data).map
    (fun l => (⟨l⟩ : String)) = ls
  have hdata : (String.mk (['\n'].intercalate (ls.map String.data))).data =
      ['\n'].intercalate (ls.map String.data) := rfl
  rw [hdata, List.splitOn_intercalate]
  · rw [List.map_map]
    exact List.map_id'' (fun _ => rfl) ls
  · intro l hl
    rcases List.mem_map.mp hl with ⟨x, hx, hxl⟩
    rw [← hxl]
    exact hnl x hx
  · simpa using hne

/-- C8: `addImport` is idempotent — after one `addImport(name)`, the
written document contains the reference line, so a second
`addImport(name)` hits the skip branch and returns the document
unchanged; adding the same name twice yields the same document as
adding it once, for every host document (including an absent one). -/
theorem claim8_addImport_idempotent (planName : String) (doc : Option String) :
    addImportDoc planName (some (addImportDoc planName doc)) = addImportDoc planName doc := by
  have h := importLine_infix_addImportDoc planName doc
  set d := addImportDoc planName doc with hd
  show addImportDoc planName (some d) = d
  unfold addImportDoc
  dsimp only
  rw [if_pos (includesStr_iff.mpr h)]

/-- C9: frame property of the ledger operations.  `removeImport` is a
no-op (no error) on an absent document; when no line matches it
returns the document byte-for-byte; when lines match, the surviving
document consists of exactly the non-matching lines in order.
`addImport` on an absent document creates only the managed section; on
a document already containing the line it is the identity; when the
managed section exists it inserts exactly `\n` plus the reference line
after the section header's first occurrence, leaving all other bytes
untouched; otherwise the original document survives as a byte-for-byte
prefix of the result. -/
theorem claim9_ledger_frame (planName content : String) :
    removeImportOpt planName none = none ∧
    ((∀ l ∈ splitLines content, jsTrim l ≠ importLineFor planName) →
      removeImportOpt planName (some content) = some content) ∧
    ((splitLines content).filter (fun l => jsTrim l ≠ importLineFor planName) ≠ [] →
      splitLines (removeImportDoc planName content) =
        (splitLines content).filter (fun l => jsTrim l ≠ importLineFor planName)) ∧
    addImportDoc planName none = planmodeSection ++ "\n" ++ importLineFor planName ++ "\n" ∧
    (includesStr content (importLineFor planName) = true →
      addImportDoc planName (some content) = content) ∧
    (includesStr content (importLineFor planName) = false →
      includesStr content planmodeSection = true →
      ∃ pre post, content.data = pre ++ planmodeSection.data ++ post ∧
        (addImportDoc planName (some content)).data =
          pre ++ planmodeSection.data ++ "\n".data ++ (importLineFor planName).data ++ post) ∧
    (includesStr content (importLineFor planName) = false →
      includesStr content planmodeSection = false →
      content.data <+: (addImportDoc planName (some content)).data) := by
  refine ⟨rfl, ?_, ?_, rfl, ?_, ?_, ?_⟩
  · intro hnone
    unfold removeImportOpt removeImportDoc
    dsimp only
    have hfil : (splitLines content).filter (fun l => jsTrim l ≠ importLineFor planName) =
        splitLines content := by
      apply List.filter_eq_self.mpr
      intro a ha
      exact decide_eq_true (hnone a ha)
    rw [hfil, joinLines_splitLines]
  · intro hne
    unfold removeImportDoc
    apply splitLines_joinLines
    · intro l hl
      exact newline_not_mem_splitLines content l (List.mem_of_mem_filter hl)
    · exact hne
  · intro hinc
    unfold addImportDoc
    dsimp only
    rw [if_pos hinc]
  · intro hnoline hsec
    unfold addImportDoc
    dsimp only
    rw [if_neg (by simp [hnoline]), if_pos hsec]
    have hsecinf : planmodeSection.data <:+: content.data := includesStr_iff.mp hsec
    have hpat : planmodeSection.data ≠ [] := by decide
    rcases replaceFirstL_found (planmodeSection ++ "\n" ++ importLineFor planName).data hpat hsecinf with
      ⟨pre, post, hdec, hrepl⟩
    refine ⟨pre, post, hdec, ?_⟩
    show replaceFirstL planmodeSection.data (planmodeSection ++ "\n" ++ importLineFor planName).data
      content.data = _
    rw [hrepl, data_append3]
    simp [List.append_assoc]
  · intro hnoline hnosec
    unfold addImportDoc
    dsimp only
    rw [if_neg (by simp [hnoline]), if_neg (by simp [hnosec])]
    rw [String.data_append, String.data_append, String.data_append, String.data_append,
      String.data_append]
    rw [List.append_assoc, List.append_assoc, List.append_assoc, List.append_assoc]
    exact List.prefix_append _ _

/-- C9 witness: removing a never-added import from a document leaves
it byte-for-byte unchanged. -/
theorem claim9_ledger_frame_witness :
    removeImportOpt "auth" (some "# Intro\nbody text") = some "# Intro\nbody text" :=
  (claim9_ledger_frame "auth" "# Intro\nbody text").2.1 (by decide)

/-- C3 (amended): `installPackage` short-circuits with success — no
resolve, no fetch, no write, no state change, no warning — exactly
when the lockfile holds an entry for the package *and no explicit
version was requested*; the recorded version is not compared with
anything. -/
theorem claim3_installPackage_short_circuit (env : RegistryEnv) (fuel : Nat)
    (packageName : String) (options : InstallOptions) (s : ProjectState)
    (hlock : (getLockedVersionS packageName s).isSome = true)
    (hver : options.version = none) :
    installGo env (fuel + 1) packageName options s = (Except.ok (), s, []) := by
  unfold installGo
  rw [hlock, hver]
  rfl

/-- C3 witness: re-installing the already-recorded `pkg-a` with no
explicit version is a complete no-op. -/
theorem claim3_installPackage_short_circuit_witness :
    installGo soloEnv 1 "pkg-a" {} soloState = (Except.ok (), soloState, []) :=
  claim3_installPackage_short_circuit soloEnv 0 "pkg-a" {} soloState (by decide) rfl

/-- C3 counterexample: with `pkg-a@1.0.0` recorded in the lockfile and
version `1.0.0` explicitly requested, the code does *not*
short-circuit — the guard also requires the absence of a requested
version — so the run resolves, fetches and rewrites the file. -/
theorem claim3_installPackage_short_circuit_counterexample :
    getLockedVersionS "pkg-a" soloState = some soloEntryA ∧
    soloEntryA.version = "1.0.0" ∧
    Event.resolve "pkg-a" ∈
      (installGo soloEnv 5 "pkg-a" { version := some "1.0.0" } soloState).2.2 ∧
    Event.fetchVersionMeta "pkg-a" "1.0.0" ∈
      (installGo soloEnv 5 "pkg-a" { version := some "1.0.0" } soloState).2.2 ∧
    Event.writeFile ".claude/rules/pkg-a.md" ∈
      (installGo soloEnv 5 "pkg-a" { version := some "1.0.0" } soloState).2.2 := by
  decide

theorem lookup_setAssoc_ne {α : Type} {k q : String} (v : α) (l : List (String × α))
    (h : k ≠ q) : List.lookup q (setAssoc k v l) = List.lookup q l := by
  have hqk : (q == k) = false := beq_eq_false_iff_ne.mpr (fun hc => h hc.symm)
  induction l with
  | nil => simp [setAssoc, List.lookup, hqk]
  | cons p rest ih =>
    cases p with
    | mk k' v' =>
      by_cases hk : k' = k
      · subst hk
        simp only [setAssoc, if_pos rfl, List.lookup, hqk]
      · simp only [setAssoc, if_neg hk, List.lookup]
        cases hq : q == k' with
        | true => rfl
        | false => exact ih

theorem lookup_setAssoc_self {α : Type} (k : String) (v : α) (l : List (String × α)) :
    List.lookup k (setAssoc k v l) = some v := by
  induction l with
  | nil => simp [setAssoc, List.lookup]
  | cons p rest ih =>
    cases p with
    | mk k' v' =>
      by_cases hk : k' = k
      · subst hk
        simp [setAssoc, List.lookup]
      · simp only [setAssoc, if_neg hk, List.lookup]
        rw [beq_eq_false_iff_ne.mpr (fun hc => hk hc.symm)]
        exact ih

theorem installDepsWith_lockfile_frame
    (inst : String → InstallOptions → ProjectState → InstallResult) (q : String)
    (h : ∀ name options s, getLockedVersionS q ((inst name options s).2.1) = getLockedVersionS q s) :
    ∀ (deps : List String) (options : InstallOptions) (s : ProjectState),
      getLockedVersionS q ((installDepsWith inst deps options s).2.1) = getLockedVersionS q s := by
  intro deps
  induction deps with
  | nil =>
    intro options s
    rfl
  | cons dep rest ih =>
    intro options s
    unfold installDepsWith
    dsimp only
    split
    · rename_i heq
      rw [h]
    · rename_i u heq
      rw [ih, h]

/-- C2: a lockfile entry is only ever written after the corresponding
content-file write has succeeded.  For a package `q` whose content
write fails (whatever placement type is chosen for it), any install
run — of `q` itself or of any package whose dependency fan-out
reaches `q` — leaves `q`'s lockfile entry exactly as it was: a failed
write leaves no new (stale) lock entry. -/
theorem claim2_no_stale_lock_entry (env : RegistryEnv) (q : String)
    (hq : ∀ t : PackageType, env.writeFails (getInstallPath q t) = true) :
    ∀ (fuel : Nat) (packageName : String) (options : InstallOptions) (s : ProjectState),
      getLockedVersionS q ((installGo env fuel packageName options s).2.1) =
        getLockedVersionS q s := by
  intro fuel
  induction fuel with
  | zero =>
    intro name options s
    rfl
  | succ n ih =>
    intro name options s
    have hdeps := installDepsWith_lockfile_frame (installGo env n) q ih
    unfold installGo
    dsimp only
    split
    · rfl
    · split
      · rfl
      · split
        · rfl
        · split
          · rfl
          · split
            · rfl
            · split
              · rfl
              · split
                · rfl
                · split
                  all_goals (
                    by_cases hname : name = q
                    · subst hname
                      rw [if_pos (hq _)]
                    · split
                      · rfl
                      · split
                        · simp only [getLockedVersionS, addToLockfileS]
                          rw [lookup_setAssoc_ne _ _ hname]
                          split
                          · rfl
                          · rfl
                        · rw [hdeps]
                          simp only [getLockedVersionS, addToLockfileS]
                          rw [lookup_setAssoc_ne _ _ hname]
                          split
                          · rfl
                          · rfl)

/-- C2 witness: installing `pkg-a` into an empty project while all
writes fail records no lockfile entry for it. -/
theorem claim2_no_stale_lock_entry_witness :
    getLockedVersionS "pkg-a"
      ((installGo failWriteEnv 3 "pkg-a" { version := some "1.0.0" } emptyProject).2.1) = none :=
  (claim2_no_stale_lock_entry failWriteEnv "pkg-a" (fun _ => rfl) 3 "pkg-a"
    { version := some "1.0.0" } emptyProject).trans rfl

theorem cyclic_pair_exhausts_fuel :
    ∀ (n : Nat) (s : ProjectState),
      ((installGo cycEnv n "pkg-a"
        { version := some "^1.0.0", forceRule := false, noInput := false, varValues := [] } s).1 =
          Except.error InstallError.fuelExhausted) ∧
      ((installGo cycEnv n "pkg-b"
        { version := some "^1.0.0", forceRule := false, noInput := false, varValues := [] } s).1 =
          Except.error InstallError.fuelExhausted) := by
  intro n
  induction n with
  | zero =>
    intro s
    exact ⟨rfl, rfl⟩
  | succ m ih =>
    intro s
    have iha := fun s' => (ih s').1
    have ihb := fun s' => (ih s').2
    constructor
    · have hres : resolveVersionM cycEnv "pkg-a" (some "^1.0.0") = Except.ok "1.0.0" := by decide
      have hvm : cycEnv.versionMeta "pkg-a" "1.0.0" = some cycVmA := by decide
      have hfile : cycEnv.file cycVmA.source.repository cycVmA.source.tag
          (basePathOf cycVmA ++ "planmode.yaml") = some "manifest-a" := by decide
      have hman : cycEnv.parseManifest "manifest-a" = Except.ok cycManifestA := by decide
      have hcontent : fetchContentStep cycEnv cycVmA cycManifestA = Except.ok ("content-a", []) := by decide
      have hrender : ∀ o : InstallOptions, renderStep cycEnv cycManifestA o "content-a" =
          Except.ok "content-a" := fun o => rfl
      have hdeps : cycManifestA.dependencies = some ⟨some ["pkg-b@^1.0.0"], none⟩ := rfl
      have hpd : parseDepString "pkg-b@^1.0.0" = ("pkg-b", "^1.0.0") := by decide
      have hbeq : (("^1.0.0" : String) == "*") = false := by decide
      have hwf : ∀ p, cycEnv.writeFails p = false := fun p => rfl
      simp only [installGo, Option.isNone_some, Bool.and_false, if_false, hres, hvm, hfile,
        hman, hcontent, hrender, hdeps, hwf, installDepsWith, hpd, hbeq, Bool.false_eq_true,
        if_false, ihb]
    · have hres : resolveVersionM cycEnv "pkg-b" (some "^1.0.0") = Except.ok "1.0.0" := by decide
      have hvm : cycEnv.versionMeta "pkg-b" "1.0.0" = some cycVmB := by decide
      have hfile : cycEnv.file cycVmB.source.repository cycVmB.source.tag
          (basePathOf cycVmB ++ "planmode.yaml") = some "manifest-b" := by decide
      have hman : cycEnv.parseManifest "manifest-b" = Except.ok cycManifestB := by decide
      have hcontent : fetchContentStep cycEnv cycVmB cycManifestB = Except.ok ("content-b", []) := by decide
      have hrender : ∀ o : InstallOptions, renderStep cycEnv cycManifestB o "content-b" =
          Except.ok "content-b" := fun o => rfl
      have hdeps : cycManifestB.dependencies = some ⟨some ["pkg-a@^1.0.0"], none⟩ := rfl
      have hpd : parseDepString "pkg-a@^1.0.0" = ("pkg-a", "^1.0.0") := by decide
      have hbeq : (("^1.0.0" : String) == "*") = false := by decide
      have hwf : ∀ p, cycEnv.writeFails p = false := fun p => rfl
      simp only [installGo, Option.isNone_some, Bool.and_false, if_false, hres, hvm, hfile,
        hman, hcontent, hrender, hdeps, hwf, installDepsWith, hpd, hbeq, Bool.false_eq_true,
        if_false, iha]

/-- C6: the dependency fan-out has no cycle guard.  On a pair of
packages whose manifests declare each other as dependencies (with a
version constraint, so the lockfile short-circuit never fires on the
re-entry), the install of `pkg-a` exhausts *every* recursion-depth
bound `n` — `installGo env n` is the source's `installPackage`
truncated at depth `n`, so the untruncated recursion never returns. -/
theorem claim6_cyclic_recursion_unbounded :
    cycManifestA.dependencies = some ⟨some ["pkg-b@^1.0.0"], none⟩ ∧
    cycManifestB.dependencies = some ⟨some ["pkg-a@^1.0.0"], none⟩ ∧
    ∀ n : Nat, (installGo cycEnv n "pkg-a" {} emptyProject).1 =
      Except.error InstallError.fuelExhausted := by
  refine ⟨rfl, rfl, ?_⟩
  intro n
  cases n with
  | zero => rfl
  | succ m =>
    have ihb := fun s' => (cyclic_pair_exhausts_fuel m s').2
    have hres : resolveVersionM cycEnv "pkg-a" none = Except.ok "1.0.0" := by decide
    have hvm : cycEnv.versionMeta "pkg-a" "1.0.0" = some cycVmA := by decide
    have hfile : cycEnv.file cycVmA.source.repository cycVmA.source.tag
        (basePathOf cycVmA ++ "planmode.yaml") = some "manifest-a" := by decide
    have hman : cycEnv.parseManifest "manifest-a" = Except.ok cycManifestA := by decide
    have hcontent : fetchContentStep cycEnv cycVmA cycManifestA = Except.ok ("content-a", []) := by decide
    have hrender : ∀ o : InstallOptions, renderStep cycEnv cycManifestA o "content-a" =
        Except.ok "content-a" := fun o => rfl
    have hdeps : cycManifestA.dependencies = some ⟨some ["pkg-b@^1.0.0"], none⟩ := rfl
    have hpd : parseDepString "pkg-b@^1.0.0" = ("pkg-b", "^1.0.0") := by decide
    have hbeq : (("^1.0.0" : String) == "*") = false := by decide
    have hwf : ∀ p, cycEnv.writeFails p = false := fun p => rfl
    have hlocked : getLockedVersionS "pkg-a" emptyProject = none := rfl
    simp only [installGo, hlocked, Option.isSome_none, Bool.false_and, if_false, hres, hvm,
      hfile, hman, hcontent, hrender, hdeps, hwf, installDepsWith, hpd, hbeq,
      Bool.false_eq_true, if_false, ihb]

theorem lookup_removeAssoc_ne {α : Type} {k q : String} (l : List (String × α))
    (h : k ≠ q) : List.lookup q (removeAssoc k l) = List.lookup q l := by
  induction l with
  | nil => rfl
  | cons p rest ih =>
    cases p with
    | mk k' v' =>
      by_cases hk : k' = k
      · subst hk
        have : (q == k') = false := beq_eq_false_iff_ne.mpr (fun hc => h hc.symm)
        simp only [removeAssoc, List.filter]
        rw [decide_eq_false (by simp : ¬ (k', v').1 ≠ k')]
        simp only [List.lookup, this]
        exact ih
      · simp only [removeAssoc, List.filter]
        rw [decide_eq_true (by simp [hk] : (k', v').1 ≠ k)]
        simp only [List.lookup]
        cases hq : q == k' with
        | true => rfl
        | false => exact ih

theorem lookup_removeAssoc_self {α : Type} (k : String) (l : List (String × α)) :
    List.lookup k (removeAssoc k l) = none := by
  induction l with
  | nil => rfl
  | cons p rest ih =>
    cases p with
    | mk k' v' =>
      by_cases hk : k' = k
      · subst hk
        simp only [removeAssoc, List.filter]
        rw [decide_eq_false (by simp : ¬ (k', v').1 ≠ k')]
        exact ih
      · simp only [removeAssoc, List.filter]
        rw [decide_eq_true (by simp [hk] : (k', v').1 ≠ k)]
        simp only [List.lookup]
        rw [beq_eq_false_iff_ne.mpr (fun hc => hk hc.symm)]
        exact ih

theorem installPath_ne_claudeMd (packageName : String) :
    getInstallPath packageName PackageType.rule ≠ claudeMdName := by
  intro h
  have h2 : (getInstallPath packageName PackageType.rule).data.head? =
      claudeMdName.data.head? := by rw [h]
  have h3 : (getInstallPath packageName PackageType.rule).data.head? = some '.' := by
    show ((".claude/rules" ++ "/") ++ packageName ++ ".md").data.head? = some '.'
    rw [String.data_append, String.data_append, String.data_append]
    rfl
  rw [h3] at h2
  exact absurd h2 (by decide)

/-- C10: with the `forceRule` override on a package whose manifest
declares type *plan* (no dependencies, no variables), the content is
written under the rule placement `.claude/rules/<name>.md`, the
lockfile entry records type `rule` rather than the manifest-declared
type, the ledger host `CLAUDE.md` is untouched and no ledger event is
emitted; a later `uninstallPackage` of the package succeeds, removes
the file and the lockfile entry, and again leaves `CLAUDE.md`
byte-for-byte untouched (it consults the *recorded* type `rule`). -/
theorem claim10_force_rule_override (env : RegistryEnv) (fuel : Nat) (packageName : String)
    (options : InstallOptions) (s : ProjectState)
    (version raw content : String) (vm : VersionMetadata) (manifest : PackageManifest)
    (hforce : options.forceRule = true)
    (hlock : getLockedVersionS packageName s = none)
    (hres : resolveVersionM env packageName options.version = Except.ok version)
    (hvm : env.versionMeta packageName version = some vm)
    (hfile : env.file vm.source.repository vm.source.tag (basePathOf vm ++ "planmode.yaml") =
      some raw)
    (hman : env.parseManifest raw = Except.ok manifest)
    (htype : manifest.type = PackageType.plan)
    (hdeps : manifest.dependencies = none)
    (hvars : manifest.varDefs = none)
    (hcontent : manifest.content = some content)
    (hcne : content ≠ "")
    (hwf : env.writeFails (getInstallPath packageName PackageType.rule) = false) :
    (installGo env (fuel + 1) packageName options s).1 = Except.ok () ∧
    getLockedVersionS packageName (installGo env (fuel + 1) packageName options s).2.1 =
      some { version := version, type := PackageType.rule, source := vm.source.repository,
             tag := vm.source.tag, sha := vm.source.sha, content_hash := env.hash content,
             installed_to := getInstallPath packageName PackageType.rule } ∧
    readFileFS (installGo env (fuel + 1) packageName options s).2.1 claudeMdName =
      readFileFS s claudeMdName ∧
    Event.ledgerAdd packageName ∉ (installGo env (fuel + 1) packageName options s).2.2 ∧
    (uninstallPackageS packageName (installGo env (fuel + 1) packageName options s).2.1).1 =
      Except.ok () ∧
    readFileFS
      (uninstallPackageS packageName (installGo env (fuel + 1) packageName options s).2.1).2.1
      claudeMdName = readFileFS s claudeMdName ∧
    getLockedVersionS packageName
      (uninstallPackageS packageName (installGo env (fuel + 1) packageName options s).2.1).2.1 =
      none := by
  have hfc : fetchContentStep env vm manifest = Except.ok (content, []) := by
    unfold fetchContentStep
    rw [hcontent]
    dsimp only
    rw [if_pos hcne]
  have hrs : ∀ c, renderStep env manifest options c = Except.ok c := by
    intro c
    unfold renderStep
    rw [hvars]
  have hner : (PackageType.rule == PackageType.plan) = false := rfl
  have hinstall : installGo env (fuel + 1) packageName options s =
      (Except.ok (),
        addToLockfileS packageName
          { version := version, type := PackageType.rule, source := vm.source.repository,
            tag := vm.source.tag, sha := vm.source.sha, content_hash := env.hash content,
            installed_to := getInstallPath packageName PackageType.rule }
          (writeFileFS s (getInstallPath packageName PackageType.rule) content),
        [Event.resolve packageName, Event.fetchVersionMeta packageName version] ++
          [Event.fetchFile vm.source.repository vm.source.tag (basePathOf vm ++ "planmode.yaml")] ++
          [] ++
          (match readFileFS s (getInstallPath packageName PackageType.rule) with
            | some existingContent =>
              if (env.hash existingContent == env.hash content) = true then []
              else [Event.warnOverwrite (getInstallPath packageName PackageType.rule)]
            | none => []) ++
          [Event.writeFile (getInstallPath packageName PackageType.rule)] ++
          [Event.lockAdd packageName]) := by
    simp only [installGo, hlock, Option.isSome_none, Bool.false_and, Bool.false_eq_true,
      if_false, hres, hvm, hfile, hman, hfc, hrs, hforce, if_true, hner, hdeps, hwf]
  rw [hinstall]
  dsimp only
  have hne := installPath_ne_claudeMd packageName
  set E : LockfileEntry :=
    { version := version, type := PackageType.rule, source := vm.source.repository,
      tag := vm.source.tag, sha := vm.source.sha, content_hash := env.hash content,
      installed_to := getInstallPath packageName PackageType.rule } with hE
  set S1 := writeFileFS s (getInstallPath packageName PackageType.rule) content with hS1
  have hlock2 : getLockedVersionS packageName (addToLockfileS packageName E S1) = some E := by
    unfold getLockedVersionS addToLockfileS
    dsimp only
    exact lookup_setAssoc_self _ _ _
  have hfe : fileExists (addToLockfileS packageName E S1)
      (getInstallPath packageName PackageType.rule) = true := by
    unfold fileExists readFileFS addToLockfileS
    dsimp only
    rw [hS1]
    unfold writeFileFS
    dsimp only
    rw [lookup_setAssoc_self]
    rfl
  have hEto : E.installed_to = getInstallPath packageName PackageType.rule := rfl
  have hEty : (E.type == PackageType.plan) = false := rfl
  have huni : uninstallPackageS packageName (addToLockfileS packageName E S1) =
      (Except.ok (),
        removeFromLockfileS packageName
          (removeFileFS (addToLockfileS packageName E S1)
            (getInstallPath packageName PackageType.rule)),
        [Event.removeFile (getInstallPath packageName PackageType.rule)] ++
          [Event.lockRemove packageName]) := by
    simp only [uninstallPackageS, hlock2, hEto, hfe, hEty, if_true, Bool.false_eq_true, if_false]
  refine ⟨rfl, hlock2, ?_, ?_, ?_, ?_, ?_⟩
  · show readFileFS (addToLockfileS packageName E S1) claudeMdName = readFileFS s claudeMdName
    unfold readFileFS addToLockfileS
    dsimp only
    rw [hS1]
    unfold writeFileFS
    dsimp only
    exact lookup_setAssoc_ne _ _ hne
  · cases hcf : readFileFS s (getInstallPath packageName PackageType.rule) with
    | none => simp
    | some e =>
      by_cases hh : (env.hash e == env.hash content) = true
      · simp [hh]
      · simp [hh]
  · rw [huni]
  · rw [huni]
    show readFileFS (removeFromLockfileS packageName
      (removeFileFS (addToLockfileS packageName E S1)
        (getInstallPath packageName PackageType.rule))) claudeMdName = readFileFS s claudeMdName
    unfold readFileFS removeFromLockfileS removeFileFS addToLockfileS
    dsimp only
    rw [hS1]
    unfold writeFileFS
    dsimp only
    rw [lookup_removeAssoc_ne _ hne]
    exact lookup_setAssoc_ne _ _ hne
  · rw [huni]
    show getLockedVersionS packageName (removeFromLockfileS packageName
      (removeFileFS (addToLockfileS packageName E S1)
        (getInstallPath packageName PackageType.rule))) = none
    unfold getLockedVersionS removeFromLockfileS removeFileFS addToLockfileS
    dsimp only
    exact lookup_removeAssoc_self _ _

/-- C10 witness: the override theorem applied to the concrete plan
package `plan-a` installed into an empty project with `--rule`. -/
theorem claim10_force_rule_override_witness :
    (installGo planEnv 1 "plan-a" { forceRule := true } emptyProject).1 = Except.ok () ∧
    getLockedVersionS "plan-a" (installGo planEnv 1 "plan-a" { forceRule := true } emptyProject).2.1 =
      some { version := "1.0.0", type := PackageType.rule, source := cycVmA.source.repository,
             tag := cycVmA.source.tag, sha := cycVmA.source.sha,
             content_hash := planEnv.hash "plan body",
             installed_to := getInstallPath "plan-a" PackageType.rule } ∧
    readFileFS (installGo planEnv 1 "plan-a" { forceRule := true } emptyProject).2.1 claudeMdName =
      readFileFS emptyProject claudeMdName ∧
    Event.ledgerAdd "plan-a" ∉ (installGo planEnv 1 "plan-a" { forceRule := true } emptyProject).2.2 ∧
    (uninstallPackageS "plan-a"
      (installGo planEnv 1 "plan-a" { forceRule := true } emptyProject).2.1).1 = Except.ok () ∧
    readFileFS
      (uninstallPackageS "plan-a"
        (installGo planEnv 1 "plan-a" { forceRule := true } emptyProject).2.1).2.1 claudeMdName =
      readFileFS emptyProject claudeMdName ∧
    getLockedVersionS "plan-a"
      (uninstallPackageS "plan-a"
        (installGo planEnv 1 "plan-a" { forceRule := true } emptyProject).2.1).2.1 = none :=
  claim10_force_rule_override planEnv 0 "plan-a" { forceRule := true } emptyProject
    "1.0.0" "manifest-plan" "plan body" cycVmA planManifestA
    rfl rfl (by decide) (by decide) (by decide) (by decide) rfl rfl rfl rfl (by decide) rfl

theorem count_planMissing_flatMap (I : List String) (n : String) :
    ∀ L : List String, L.Nodup →
      (L.flatMap (fun p => if p ∈ I then []
        else [(⟨Severity.error, DiagKind.planMissingImport p⟩ : DiagnosticIssue)])).count
        ⟨Severity.error, DiagKind.planMissingImport n⟩ =
      if n ∈ L ∧ n ∉ I then 1 else 0 := by
  intro L
  induction L with
  | nil =>
    intro _
    simp
  | cons p L' ih =>
    intro hnd
    rw [List.flatMap_cons, List.count_append]
    rw [ih (List.nodup_cons.mp hnd).2]
    by_cases hpI : p ∈ I
    · rw [if_pos hpI]
      have hiff : (n ∈ p :: L' ∧ n ∉ I) ↔ (n ∈ L' ∧ n ∉ I) := by
        constructor
        · intro hc
          rcases List.mem_cons.mp hc.1 with h | h
          · subst h
            exact absurd hpI hc.2
          · exact ⟨h, hc.2⟩
        · intro hc
          exact ⟨List.mem_cons_of_mem p hc.1, hc.2⟩
      rw [if_congr hiff rfl rfl]
      simp
    · rw [if_neg hpI]
      by_cases hpn : p = n
      · subst hpn
        have hnL' : p ∉ L' := (List.nodup_cons.mp hnd).1
        rw [if_neg (fun hc => hnL' hc.1)]
        rw [if_pos ⟨List.mem_cons_self p L', hpI⟩]
        simp
      · have hcount : (([(⟨Severity.error, DiagKind.planMissingImport p⟩ : DiagnosticIssue)]).count
            ⟨Severity.error, DiagKind.planMissingImport n⟩) = 0 := by
          simp [List.count_cons]
          intro hc
          exact hpn hc
        rw [hcount]
        have hiff : (n ∈ p :: L' ∧ n ∉ I) ↔ (n ∈ L' ∧ n ∉ I) := by
          constructor
          · intro hc
            rcases List.mem_cons.mp hc.1 with h | h
            · exact absurd h.symm hpn
            · exact ⟨h, hc.2⟩
          · intro hc
            exact ⟨List.mem_cons_of_mem p hc.1, hc.2⟩
        rw [if_congr hiff rfl rfl]
        simp

theorem count_dangling_flatMap (P : List String) (fe : String → Bool) (n : String) :
    ∀ I : List String,
      (I.flatMap (fun i => if i ∈ P then []
        else if fe i then [(⟨Severity.warning, DiagKind.untrackedImport i⟩ : DiagnosticIssue)]
        else [(⟨Severity.error, DiagKind.danglingImport i⟩ : DiagnosticIssue)])).count
        ⟨Severity.error, DiagKind.danglingImport n⟩ =
      if n ∉ P ∧ fe n = false then I.count n else 0 := by
  intro I
  induction I with
  | nil => simp
  | cons i rest ih =>
    rw [List.flatMap_cons, List.count_append, ih, List.count_cons]
    by_cases hin : i = n
    · subst hin
      split_ifs <;> simp_all [List.count_cons] <;> omega
    · split_ifs <;> simp_all [List.count_cons, hin]

theorem count_untracked_flatMap (P : List String) (fe : String → Bool) (n : String) :
    ∀ I : List String,
      (I.flatMap (fun i => if i ∈ P then []
        else if fe i then [(⟨Severity.warning, DiagKind.untrackedImport i⟩ : DiagnosticIssue)]
        else [(⟨Severity.error, DiagKind.danglingImport i⟩ : DiagnosticIssue)])).count
        ⟨Severity.warning, DiagKind.untrackedImport n⟩ =
      if n ∉ P ∧ fe n = true then I.count n else 0 := by
  intro I
  induction I with
  | nil => simp
  | cons i rest ih =>
    rw [List.flatMap_cons, List.count_append, ih, List.count_cons]
    by_cases hin : i = n
    · subst hin
      split_ifs <;> simp_all [List.count_cons] <;> omega
    · split_ifs <;> simp_all [List.count_cons, hin]

theorem not_mem_fileIssues (hash : String → String) (s : ProjectState) (t : DiagnosticIssue)
    (h1 : ∀ a b, t.kind ≠ DiagKind.missingFile a b)
    (h2 : ∀ a b, t.kind ≠ DiagKind.hashMismatch a b) : t ∉ fileIssuesOf hash s := by
  intro hmem
  rcases List.mem_flatMap.mp hmem with ⟨pe, _, hx⟩
  revert hx
  cases readFileFS s pe.2.installed_to with
  | none =>
    intro hx
    simp at hx
    exact h1 _ _ (by rw [hx])
  | some content =>
    dsimp only
    split
    · intro hx
      simp at hx
      exact h2 _ _ (by rw [hx])
    · simp

theorem not_mem_planIssues (s : ProjectState) (t : DiagnosticIssue)
    (h : ∀ a, t.kind ≠ DiagKind.planMissingImport a) : t ∉ planIssuesOf s := by
  intro hmem
  rcases List.mem_flatMap.mp hmem with ⟨p, _, hx⟩
  revert hx
  split
  · simp
  · intro hx
    simp at hx
    exact h _ (by rw [hx])

theorem not_mem_importIssues (s : ProjectState) (t : DiagnosticIssue)
    (h1 : ∀ a, t.kind ≠ DiagKind.untrackedImport a)
    (h2 : ∀ a, t.kind ≠ DiagKind.danglingImport a) : t ∉ importIssuesOf s := by
  intro hmem
  rcases List.mem_flatMap.mp hmem with ⟨p, _, hx⟩
  revert hx
  split
  · simp
  · split
    · intro hx
      simp at hx
      exact h1 _ (by rw [hx])
    · intro hx
      simp at hx
      exact h2 _ (by rw [hx])

theorem not_mem_claudeIssues (s : ProjectState) (t : DiagnosticIssue)
    (h : t.kind ≠ DiagKind.claudeMdMissing) : t ∉ claudeIssuesOf s := by
  intro hmem
  revert hmem
  unfold claudeIssuesOf
  split
  · intro hmem
    simp at hmem
    exact h (by rw [hmem])
  · simp

theorem not_mem_orphanIssues (s : ProjectState) (t : DiagnosticIssue)
    (h : ∀ a, t.kind ≠ DiagKind.untrackedPlanFile a) : t ∉ orphanIssuesOf s := by
  intro hmem
  revert hmem
  unfold orphanIssuesOf
  split
  · intro hmem
    rcases List.mem_flatMap.mp hmem with ⟨f, _, hx⟩
    revert hx
    split
    · simp
    · intro hx
      simp at hx
      exact h _ (by rw [hx])
  · simp

theorem installedPlans_nodup (s : ProjectState)
    (hnd : (s.lockfile.packages.map Prod.fst).Nodup) : (installedPlansOf s).Nodup := by
  unfold installedPlansOf
  exact hnd.sublist (List.Sublist.map Prod.fst (List.filter_sublist _))

/-- C4: for every project state with well-formed (unique-key)
lockfile records and every name, the doctor reports exactly one
error-severity issue per plan-typed lockfile entry absent from the
ledger, exactly one error-severity issue per ledger entry (occurrence)
that has neither a matching plan lockfile entry nor a backing file on
disk, and a warning instead when the backing file exists.  Counts are
stated per name: the issue appears once per qualifying lockfile entry
(keys are unique) resp. once per qualifying ledger occurrence. -/
theorem claim4_doctor_counts (hash : String → String) (s : ProjectState) (name : String)
    (hnd : (s.lockfile.packages.map Prod.fst).Nodup) :
    ((runDoctor hash s).issues.count ⟨Severity.error, DiagKind.planMissingImport name⟩ =
      if name ∈ installedPlansOf s ∧ name ∉ importsOf s then 1 else 0) ∧
    ((runDoctor hash s).issues.count ⟨Severity.error, DiagKind.danglingImport name⟩ =
      if name ∉ installedPlansOf s ∧ fileExists s (planFilePath name) = false then
        (importsOf s).count name else 0) ∧
    ((runDoctor hash s).issues.count ⟨Severity.warning, DiagKind.untrackedImport name⟩ =
      if name ∉ installedPlansOf s ∧ fileExists s (planFilePath name) = true then
        (importsOf s).count name else 0) := by
  have hplans := installedPlans_nodup s hnd
  unfold runDoctor
  dsimp only
  refine ⟨?_, ?_, ?_⟩
  · rw [List.count_append, List.count_append, List.count_append, List.count_append]
    rw [List.count_eq_zero.mpr (not_mem_fileIssues hash s _ (by simp) (by simp))]
    rw [List.count_eq_zero.mpr (not_mem_importIssues s _ (by simp) (by simp))]
    rw [List.count_eq_zero.mpr (not_mem_claudeIssues s _ (by simp))]
    rw [List.count_eq_zero.mpr (not_mem_orphanIssues s _ (by simp))]
    have := count_planMissing_flatMap (importsOf s) name (installedPlansOf s) hplans
    unfold planIssuesOf
    omega
  · rw [List.count_append, List.count_append, List.count_append, List.count_append]
    rw [List.count_eq_zero.mpr (not_mem_fileIssues hash s _ (by simp) (by simp))]
    rw [List.count_eq_zero.mpr (not_mem_planIssues s _ (by simp))]
    rw [List.count_eq_zero.mpr (not_mem_claudeIssues s _ (by simp))]
    rw [List.count_eq_zero.mpr (not_mem_orphanIssues s _ (by simp))]
    have := count_dangling_flatMap (installedPlansOf s)
      (fun i => fileExists s (planFilePath i)) name (importsOf s)
    unfold importIssuesOf
    omega
  · rw [List.count_append, List.count_append, List.count_append, List.count_append]
    rw [List.count_eq_zero.mpr (not_mem_fileIssues hash s _ (by simp) (by simp))]
    rw [List.count_eq_zero.mpr (not_mem_planIssues s _ (by simp))]
    rw [List.count_eq_zero.mpr (not_mem_claudeIssues s _ (by simp))]
    rw [List.count_eq_zero.mpr (not_mem_orphanIssues s _ (by simp))]
    have := count_untracked_flatMap (installedPlansOf s)
      (fun i => fileExists s (planFilePath i)) name (importsOf s)
    unfold importIssuesOf
    omega

/-- C4 witness: in `doctorState`, each of the three cases yields
exactly one issue of the stated severity. -/
theorem claim4_doctor_counts_witness :
    ((runDoctor (fun c => "sha256:" ++ c) doctorState).issues.count
      ⟨Severity.error, DiagKind.planMissingImport "p1"⟩ = 1) ∧
    ((runDoctor (fun c => "sha256:" ++ c) doctorState).issues.count
      ⟨Severity.error, DiagKind.danglingImport "p2"⟩ = 1) ∧
    ((runDoctor (fun c => "sha256:" ++ c) doctorState).issues.count
      ⟨Severity.warning, DiagKind.untrackedImport "p3"⟩ = 1) :=
  ⟨((claim4_doctor_counts (fun c => "sha256:" ++ c) doctorState "p1" (by decide)).1).trans
      (by decide),
    ((claim4_doctor_counts (fun c => "sha256:" ++ c) doctorState "p2" (by decide)).2.1).trans
      (by decide),
    ((claim4_doctor_counts (fun c => "sha256:" ++ c) doctorState "p3" (by decide)).2.2).trans
      (by decide)⟩

theorem parseImportLine_data (nd : List Char) (h1 : nd ≠ []) :
    parseImportLine ⟨'-' :: ' ' :: '@' :: 'p' :: 'l' :: 'a' :: 'n' :: 's' :: '/' ::
      (nd ++ ['.', 'm', 'd'])⟩ = some ⟨nd⟩ := by
  unfold parseImportLine
  dsimp only
  rw [if_pos rfl]
  rw [show List.dropWhile isJsWhitespace (' ' :: '@' :: 'p' :: 'l' :: 'a' :: 'n' :: 's' :: '/' ::
    (nd ++ ['.', 'm', 'd'])) = '@' :: 'p' :: 'l' :: 'a' :: 'n' :: 's' :: '/' ::
    (nd ++ ['.', 'm', 'd']) from rfl]
  rw [show isPrefixOfB ['@', 'p', 'l', 'a', 'n', 's', '/'] ('@' :: 'p' :: 'l' :: 'a' :: 'n' :: 's' :: '/' ::
    (nd ++ ['.', 'm', 'd'])) = true from decide_eq_true
      (by refine ⟨nd ++ ['.', 'm', 'd'], ?_⟩; rfl)]
  rw [if_pos rfl]
  rw [show List.drop (['@', 'p', 'l', 'a', 'n', 's', '/'] : List Char).length
    ('@' :: 'p' :: 'l' :: 'a' :: 'n' :: 's' :: '/' :: (nd ++ ['.', 'm', 'd'])) =
    nd ++ ['.', 'm', 'd'] from rfl]
  rw [show isSuffixOfB ['.', 'm', 'd'] (nd ++ ['.', 'm', 'd']) = true from decide_eq_true
    (by refine ⟨nd, ?_⟩; rfl)]
  rw [show decide (3 < (nd ++ ['.', 'm', 'd']).length) = true from decide_eq_true
    (by rw [List.length_append]; have := List.length_pos.mpr h1; simp; omega)]
  rw [show ((true && true) = true) from rfl]
  rw [if_pos rfl]
  rw [show (nd ++ ['.', 'm', 'd']).length - 3 = nd.length from by rw [List.length_append]; simp]
  rw [List.take_left]

theorem importLineFor_data (name : String) :
    importLineFor name = ⟨'-' :: ' ' :: '@' :: 'p' :: 'l' :: 'a' :: 'n' :: 's' :: '/' ::
      (name.data ++ ['.', 'm', 'd'])⟩ := rfl

theorem parseImportLine_importLineFor (name : String) (h1 : name.data ≠ []) :
    parseImportLine (importLineFor name) = some name := by
  rw [importLineFor_data, parseImportLine_data name.data h1]

theorem claudeDoc_data (name : String) :
    ("# Planmode" ++ "\n" ++ importLineFor name ++ "\n") =
      ⟨'#' :: ' ' :: 'P' :: 'l' :: 'a' :: 'n' :: 'm' :: 'o' :: 'd' :: 'e' :: '\n' ::
        ((importLineFor name).data ++ ['\n'])⟩ := rfl

theorem importLine_no_newline (name : String) (h2 : '\n' ∉ name.data) :
    ∀ x ∈ (importLineFor name).data, ¬ (x == '\n') = true := by
  intro x hx
  rw [importLineFor_data] at hx
  simp at hx
  rcases hx with h | h | h | h | h | h | h | h | h | h
  · subst h; decide
  · subst h; decide
  · subst h; decide
  · subst h; decide
  · subst h; decide
  · subst h; decide
  · subst h; decide
  · subst h; decide
  · subst h; decide
  · rcases h with h | h | h | h
    · intro hb
      rw [beq_iff_eq] at hb
      subst hb
      exact h2 h
    · subst h; decide
    · subst h; decide
    · subst h; decide

theorem splitLines_claudeDoc (name : String) (h2 : '\n' ∉ name.data) :
    splitLines ("# Planmode" ++ "\n" ++ importLineFor name ++ "\n") =
      ["# Planmode", importLineFor name, ""] := by
  rw [claudeDoc_data]
  unfold splitLines
  show ((List.splitOn '\n' ("# Planmode".data ++ '\n' :: ((importLineFor name).data ++ ['\n'])))).map
    (fun l => (⟨l⟩ : String)) = _
  unfold List.splitOn
  rw [List.splitOnP_first _ "# Planmode".data (by decide) '\n' (by decide)]
  rw [show ((importLineFor name).data ++ ['\n']) = ((importLineFor name).data ++ '\n' :: []) from rfl]
  rw [List.splitOnP_first _ (importLineFor name).data (importLine_no_newline name h2) '\n' (by decide)]
  rw [List.splitOnP_nil]
  rfl

theorem listImportsDoc_claudeDoc (name : String) (h1 : name.data ≠ []) (h2 : '\n' ∉ name.data) :
    listImportsDoc ("# Planmode" ++ "\n" ++ importLineFor name ++ "\n") = [name] := by
  unfold listImportsDoc
  rw [splitLines_claudeDoc name h2]
  rw [List.filterMap_cons, List.filterMap_cons, List.filterMap_cons, List.filterMap_nil]
  rw [show parseImportLine "# Planmode" = none from rfl]
  rw [show parseImportLine "" = none from rfl]
  rw [parseImportLine_importLineFor name h1]

theorem planFilePath_ne_claudeMd (name : String) : planFilePath name ≠ claudeMdName := by
  intro h
  have h2 : (planFilePath name).data.head? = claudeMdName.data.head? := by rw [h]
  have h3 : (planFilePath name).data.head? = some 'p' := rfl
  rw [h3] at h2
  exact absurd h2 (by decide)

/-- C5: in the drift scenario — a plan installed and tracked, its
backing file edited so that the computed hash no longer equals the
recorded one — the doctor reports exactly the single warning-severity
hash-mismatch issue for that package and nothing else, and `healthy`
stays true since only error-severity issues count against it. -/
theorem claim5_hash_drift_single_warning (hash : String → String) (name edited recorded : String)
    (h1 : name.data ≠ []) (h2 : '\n' ∉ name.data) (h3 : '/' ∉ name.data)
    (hdrift : hash edited ≠ recorded) :
    runDoctor hash (editedPlanState name edited recorded) =
      { issues := [⟨Severity.warning, DiagKind.hashMismatch name (planFilePath name)⟩],
        packagesChecked := 1,
        healthy := true } := by
  set s := editedPlanState name edited recorded with hs
  have hrp : readFileFS s (planFilePath name) = some edited := by
    simp [readFileFS, hs, editedPlanState, List.lookup]
  have hrc : readFileFS s claudeMdName =
      some ("# Planmode" ++ "\n" ++ importLineFor name ++ "\n") := by
    simp [readFileFS, hs, editedPlanState, List.lookup,
      beq_eq_false_iff_ne.mpr (Ne.symm (planFilePath_ne_claudeMd name))]
  have himports : importsOf s = [name] := by
    unfold importsOf
    rw [hrc]
    unfold listImports
    exact listImportsDoc_claudeDoc name h1 h2
  have hplans : installedPlansOf s = [name] := rfl
  have hfileI : fileIssuesOf hash s =
      [⟨Severity.warning, DiagKind.hashMismatch name (planFilePath name)⟩] := by
    unfold fileIssuesOf
    show ([(name, (⟨"1.0.0", PackageType.plan, "r-a", "v1", "sha-1", recorded,
      planFilePath name⟩ : LockfileEntry))]).flatMap _ = _
    rw [List.flatMap_cons, List.flatMap_nil]
    dsimp only
    rw [hrp]
    dsimp only
    rw [if_pos hdrift]
    rfl
  have hplanI : planIssuesOf s = [] := by
    unfold planIssuesOf
    rw [hplans, himports]
    simp
  have himpI : importIssuesOf s = [] := by
    unfold importIssuesOf
    rw [himports, hplans]
    simp
  have hclI : claudeIssuesOf s = [] := by
    unfold claudeIssuesOf
    rw [hplans]
    simp [fileExists, hrc]
  have hpre1 : isPrefixOfB "plans/".data (planFilePath name).data = true :=
    decide_eq_true ⟨name.data ++ ['.', 'm', 'd'], rfl⟩
  have hdrop : (planFilePath name).data.drop "plans/".data.length =
      name.data ++ ['.', 'm', 'd'] := by
    rw [show (planFilePath name).data = "plans/".data ++ (name.data ++ ['.', 'm', 'd']) from rfl]
    exact List.drop_left _ _
  have hcon : (name.data ++ ['.', 'm', 'd']).contains '/' = false := by
    rw [Bool.eq_false_iff]
    intro hc
    have hm : '/' ∈ name.data ++ ['.', 'm', 'd'] := List.mem_of_elem_eq_true hc
    rcases List.mem_append.mp hm with hmn | hmd
    · exact h3 hmn
    · simp at hmd
  have hlisting : plansDirListing s = [⟨name.data ++ ['.', 'm', 'd']⟩] := by
    unfold plansDirListing
    show ([(planFilePath name, edited),
      (claudeMdName, "# Planmode" ++ "\n" ++ importLineFor name ++ "\n")]).filterMap _ = _
    rw [List.filterMap_cons, List.filterMap_cons, List.filterMap_nil]
    dsimp only
    rw [hpre1, if_pos rfl, hdrop, hcon]
    rw [show isPrefixOfB "plans/".data claudeMdName.data = false from by decide]
    rw [if_neg (by simp), if_neg (by simp)]
  have hmkname : (⟨name.data ++ ['.', 'm', 'd']⟩ : String) = name ++ ".md" := rfl
  have hstrip : stripMdSuffix (name ++ ".md") = name := by
    unfold stripMdSuffix
    rw [show (name ++ ".md").data = name.data ++ ['.', 'm', 'd'] from rfl]
    rw [show isSuffixOfB ".md".data (name.data ++ ['.', 'm', 'd']) = true from
      decide_eq_true ⟨name.data, rfl⟩]
    rw [if_pos rfl]
    rw [List.length_append]
    rw [show name.data.length + (['.', 'm', 'd'] : List Char).length - 3 = name.data.length from by
      simp]
    rw [List.take_left]
  have horphI : orphanIssuesOf s = [] := by
    unfold orphanIssuesOf
    rw [show plansDirExists s = true from by
      unfold plansDirExists
      show ([(planFilePath name, edited),
        (claudeMdName, "# Planmode" ++ "\n" ++ importLineFor name ++ "\n")]).any _ = true
      rw [List.any_cons]
      dsimp only
      rw [hpre1]
      rfl]
    rw [if_pos rfl]
    rw [hlisting, hmkname]
    rw [show (([(name ++ ".md")]).filter (fun f => isSuffixOfB ".md".data f.data)) =
      [(name ++ ".md")] from by
      rw [List.filter_cons]
      rw [show isSuffixOfB ".md".data (name ++ ".md").data = true from
        decide_eq_true ⟨name.data, rfl⟩]
      rfl]
    rw [List.flatMap_cons, List.flatMap_nil]
    rw [hstrip]
    show (if (List.lookup name [(name, (⟨"1.0.0", PackageType.plan, "r-a", "v1", "sha-1", recorded,
      planFilePath name⟩ : LockfileEntry))]).isSome = true then _ else _) ++ [] = []
    simp [List.lookup]
  unfold runDoctor
  rw [hfileI, hplanI, himpI, hclI, horphI]
  rfl

/-- C5 witness: the scenario theorem at a concrete package and edit. -/
theorem claim5_hash_drift_single_warning_witness :
    runDoctor (fun c => "sha256:" ++ c) (editedPlanState "my-plan" "edited body" "sha256:orig") =
      { issues := [⟨Severity.warning, DiagKind.hashMismatch "my-plan" (planFilePath "my-plan")⟩],
        packagesChecked := 1,
        healthy := true } :=
  claim5_hash_drift_single_warning (fun c => "sha256:" ++ c) "my-plan" "edited body" "sha256:orig"
    (by decide) (by decide) (by decide) (by decide)
